import Mathlib

/-! ControlRig units: pin-space advice, default construction and hierarchy writes.

A shallow embedding of the ControlRig rig units
`FRigUnit_SetBoneTranslation`, `FRigUnit_ModifyBoneTransforms` and the
`FRigUnit_GetControl*` getters.

* The bodies of `DetermineSpaceForPin` and of the constructors are translated
  from the unit headers.
* The string, array, name and hierarchy primitives the headers call
  (`FString`, `FCString::Atoi`, `TArray`, `FName`, `FRigBoneHierarchy`) and
  the `Execute` bodies live in engine modules outside the headers; they are
  modelled here and each such definition says so in its doc comment.
-/

namespace ControlRig

/-! ## Core primitives -/

/-- Modelled from the spec: the engine's `INDEX_NONE`, the "not found"
sentinel of every index lookup (the engine defines it as `-1`). -/
def INDEX_NONE : Int := -1

/-- Modelled from the spec: the engine's `FName`, a stable name compared by
its name-table entry and instance number. -/
structure FName where
  ComparisonIndex : Nat
  Number : Nat
  deriving DecidableEq, Repr

/-- Modelled from the spec: the engine's `NAME_None`, the empty name (entry 0
of the name table). -/
def NAME_None : FName := ⟨0, 0⟩

/-- Modelled from the spec: the engine's `FString`, a sequence of
characters. -/
abbrev FString := List Char

/-- Modelled from the spec: the engine's `TEXT("...")` literal. -/
def TEXT (s : String) : FString := s.toList

/-- Modelled from the spec: character comparison under
`ESearchCase::IgnoreCase`, the default search case of `FString::StartsWith`,
`FString::Replace` and `FString::Split`. -/
def CharEqualsIgnoreCase (a b : Char) : Bool := a.toLower == b.toLower

/-- Modelled from the spec: `Strnicmp`-style test that the pattern (first
argument) occurs at the very start of the string (second argument), ignoring
case. -/
def MatchesAt : FString → FString → Bool
  | [], _ => true
  | _ :: _, [] => false
  | p :: ps, c :: cs => CharEqualsIgnoreCase c p && MatchesAt ps cs

/-- Modelled from the spec: `FString::StartsWith(const TCHAR*)` with its
default `ESearchCase::IgnoreCase`; an empty prefix never matches. -/
def StartsWith (S InPre : FString) : Bool :=
  !InPre.isEmpty && MatchesAt InPre S

/-- Modelled from the spec: the scan of `FString::Replace`; `Skip` counts the
characters of a matched occurrence of `From` that are still to be dropped. -/
def ReplaceScan (From To : FString) : Nat → FString → FString
  | _, [] => []
  | Skip + 1, _ :: cs => ReplaceScan From To Skip cs
  | 0, c :: cs =>
    if MatchesAt From (c :: cs) then To ++ ReplaceScan From To (From.length - 1) cs
    else c :: ReplaceScan From To 0 cs

/-- Modelled from the spec: `FString::Replace(From, To)`, a copy of the
string with every (non-overlapping, left to right, case-ignoring) occurrence
of `From` replaced by `To`; an empty `From` leaves the string as it is. -/
def Replace (S From To : FString) : FString :=
  if From.isEmpty then S else ReplaceScan From To 0 S

/-- Modelled from the spec: the scan of `FString::Find`, the position of the
first occurrence of `SubStr` in the string, searching from the start. -/
def FindScan (SubStr : FString) : FString → Option Nat
  | [] => none
  | c :: cs =>
    if MatchesAt SubStr (c :: cs) then some 0
    else (FindScan SubStr cs).map (· + 1)

/-- Modelled from the spec: `FString::Find(SubStr)` from the start, ignoring
case; `none` stands for `INDEX_NONE`. -/
def Find (S SubStr : FString) : Option Nat :=
  if SubStr.isEmpty then none else FindScan SubStr S

/-- Modelled from the spec: `FString::Split(InS, &LeftS, &RightS)`: when
`InS` occurs in the string, the text before its first occurrence and the text
after it (`some (LeftS, RightS)`, the call returning `true`); otherwise
`none` (the call returning `false` and the outputs left untouched). -/
def Split (S InS : FString) : Option (FString × FString) :=
  match Find S InS with
  | none => none
  | some InPos => some (S.take InPos, S.drop (InPos + InS.length))

/-- Modelled from the spec: the white space `atoi` skips: space, tab, line
feed, vertical tab, form feed, carriage return. -/
def IsWhitespace (c : Char) : Bool :=
  c.toNat == 32 || (decide (9 ≤ c.toNat) && decide (c.toNat ≤ 13))

/-- Modelled from the spec: the decimal digits `atoi` reads, `'0'` to `'9'`
(code points 48 to 57). -/
def IsDigit (c : Char) : Bool :=
  decide (48 ≤ c.toNat) && decide (c.toNat ≤ 57)

/-- Modelled from the spec: the digit loop of `atoi`, the value of the
longest run of decimal digits at the start of the string, continuing from the
accumulator. -/
def AtoiDigits : Nat → FString → Nat
  | Acc, [] => Acc
  | Acc, c :: cs =>
    if IsDigit c then AtoiDigits (Acc * 10 + (c.toNat - 48)) cs else Acc

/-- Modelled from the spec: two's-complement reduction of an integer to the
`int32` range. -/
def WrapInt32 (v : Int) : Int := (v + 2 ^ 31) % 2 ^ 32 - 2 ^ 31

/-- Modelled from the spec: `FCString::Atoi`, the C library's `atoi` on
`TCHAR`: skips leading white space, reads an optional sign and then the
longest run of decimal digits; text with no digits there reads as `0`. The
result is an `int32` (a value outside its range is platform-defined in C; it
is reduced modulo `2^32` here). -/
def Atoi (S : FString) : Int :=
  match S.dropWhile IsWhitespace with
  | '-' :: cs => WrapInt32 (-(AtoiDigits 0 cs : Int))
  | '+' :: cs => WrapInt32 (AtoiDigits 0 cs)
  | cs => WrapInt32 (AtoiDigits 0 cs)

/-- Decimal text of a natural number, as `Nat.repr` prints it. -/
def Decimal (i : Nat) : FString := (Nat.repr i).toList

/-- Modelled from the spec: `FTransform::Identity` of the engine's transform
type `T`, which is also what the default constructor `FTransform()` yields. -/
class FTransformIdentity (T : Type) where
  Identity : T

/-! ## Checked array access -/

/-- The arrays a unit subscripts with `operator[]`. -/
inductive EArray where
  | BoneToModify
  | BoneHierarchy
  | ControlHierarchy
  deriving DecidableEq, Repr

/-- One use of `operator[]`: which array, at which index, and the array's
`Num()` at that moment. -/
structure FSubscript where
  Array : EArray
  Index : Int
  Num : Nat
  deriving DecidableEq, Repr

/-- In-range test of a recorded subscript. -/
def FSubscript.InBounds (s : FSubscript) : Prop := 0 ≤ s.Index ∧ s.Index < s.Num

/-- Outcome of a computation that subscripts arrays: `Value` is `none` when a
range check of `operator[]` failed (the engine aborts there), and
`Subscripts` lists every use of `operator[]` in order. -/
structure TChecked (α : Type) where
  Value : Option α
  Subscripts : List FSubscript

/-- A result computed without touching an array. -/
def TChecked.ret {α : Type} (a : α) : TChecked α := ⟨some a, []⟩

/-- Sequencing: the continuation runs only when the first part did not
abort; the subscript records are concatenated. -/
def TChecked.andThen {α β : Type} (x : TChecked α) (f : α → TChecked β) : TChecked β :=
  match x.Value with
  | none => ⟨none, x.Subscripts⟩
  | some a => ⟨(f a).Value, x.Subscripts ++ (f a).Subscripts⟩

/-- Modelled from the spec: the engine's `TArray`, an array that counts its
elements in an `int32`: `Data` holds the elements in order and `Num()` never
exceeds `2^31 - 1`. -/
structure TArray (α : Type) where
  Data : List α
  NumFits : Data.length ≤ 2147483647

/-- Modelled from the spec: `TArray::IsValidIndex`. -/
def IsValidIndex {α : Type} (A : List α) (Index : Int) : Bool :=
  decide (0 ≤ Index) && decide (Index < A.length)

/-- Modelled from the spec: `TArray::operator[]` with its range check,
recorded as a subscript of the array `Id`. -/
def Subscript {α : Type} (Id : EArray) (A : List α) (Index : Int) : TChecked α :=
  ⟨if IsValidIndex A Index then A[Index.toNat]? else none, [⟨Id, Index, A.length⟩]⟩

/-! ## Hierarchy container -/

/-- Modelled from the spec: a bone of the hierarchy, `node[index] ->
{parentName, localTransform, globalTransform}` together with its own name;
`T` is the engine's transform type. -/
structure FRigBone (T : Type) where
  Name : FName
  ParentName : FName
  LocalTransform : T
  GlobalTransform : T

/-- Modelled from the spec: the bone hierarchy, an ordered collection of
bones. -/
structure FRigBoneHierarchy (T : Type) where
  Bones : List (FRigBone T)

/-- Modelled from the spec: the hierarchy container handed to a unit as its
user context. -/
structure FRigHierarchyContainer (T : Type) where
  BoneHierarchy : FRigBoneHierarchy T

/-- Modelled from the spec: the lookup by name behind `GetIndex`, the index of
the first bone called `InName` among `Bones`, counted from `Start`. -/
def GetIndexFrom {T : Type} (InName : FName) : List (FRigBone T) → Nat → Int
  | [], _ => INDEX_NONE
  | b :: bs, Start => if b.Name = InName then (Start : Int) else GetIndexFrom InName bs (Start + 1)

/-- Modelled from the spec: `GetIndex(name) -> index|sentinel`. -/
def FRigBoneHierarchy.GetIndex {T : Type} (H : FRigBoneHierarchy T) (InName : FName) : Int :=
  GetIndexFrom InName H.Bones 0

/-- Modelled from the spec: `FRigBoneHierarchy::operator[]`. -/
def FRigBoneHierarchy.At {T : Type} (H : FRigBoneHierarchy T) (Index : Int) :
    TChecked (FRigBone T) :=
  Subscript EArray.BoneHierarchy H.Bones Index

/-! ## `FRigUnit_SetBoneTranslation` -/

/-- Modelled from the spec: the two spaces of a single-target getter or
setter. -/
inductive EBoneGetterSetterMode where
  | LocalSpace
  | GlobalSpace
  deriving DecidableEq, Repr

/-- Modelled from the spec: the engine's `FVector` over the scalar type
`F`. -/
structure FVector (F : Type) where
  X : F
  Y : F
  Z : F
  deriving DecidableEq, Repr

/-- Modelled from the spec: `FVector::ZeroVector`. -/
def FVector.ZeroVector {F : Type} [Zero F] : FVector F := ⟨0, 0, 0⟩

/-- The unit `FRigUnit_SetBoneTranslation` (its properties). -/
structure FRigUnit_SetBoneTranslation (F : Type) where
  Bone : FName
  Translation : FVector F
  Space : EBoneGetterSetterMode
  Weight : F
  bPropagateToChildren : Bool
  CachedBoneIndex : Int

/-- The constructor `FRigUnit_SetBoneTranslation()`; `Bone` is
default-constructed. -/
def FRigUnit_SetBoneTranslation.New {F : Type} [Zero F] [One F] : FRigUnit_SetBoneTranslation F where
  Bone := NAME_None
  Translation := FVector.ZeroVector
  Space := EBoneGetterSetterMode.LocalSpace
  Weight := 1
  bPropagateToChildren := false
  CachedBoneIndex := INDEX_NONE

/-- The method `FRigUnit_SetBoneTranslation::DetermineSpaceForPin`; a null
`InUserContext` is `none`. -/
def FRigUnit_SetBoneTranslation.DetermineSpaceForPin {F T : Type}
    (U : FRigUnit_SetBoneTranslation F) (InPinPath : FString)
    (InUserContext : Option (FRigHierarchyContainer T)) : TChecked FName :=
  if StartsWith InPinPath (TEXT "Translation") && decide (U.Space = EBoneGetterSetterMode.LocalSpace) then
    match InUserContext with
    | some Container =>
      let BoneIndex := Container.BoneHierarchy.GetIndex U.Bone
      if BoneIndex ≠ INDEX_NONE then
        (Container.BoneHierarchy.At BoneIndex).andThen fun Bone => TChecked.ret Bone.ParentName
      else TChecked.ret NAME_None
    | none => TChecked.ret NAME_None
  else TChecked.ret NAME_None

/-! ## `FRigUnit_ModifyBoneTransforms` -/

/-- The enum `EControlRigModifyBoneMode`. -/
inductive EControlRigModifyBoneMode where
  | OverrideLocal
  | OverrideGlobal
  | AdditiveLocal
  | AdditiveGlobal
  | Max
  deriving DecidableEq, Repr

/-- The struct `FRigUnit_ModifyBoneTransforms_PerBone`. -/
structure FRigUnit_ModifyBoneTransforms_PerBone (T : Type) where
  Bone : FName
  Transform : T

/-- The struct `FRigUnit_ModifyBoneTransforms_WorkData`. -/
structure FRigUnit_ModifyBoneTransforms_WorkData where
  CachedBoneIndices : List Int
  deriving DecidableEq, Repr

/-- The unit `FRigUnit_ModifyBoneTransforms` (its properties); `F` is the
scalar type of the weights and `T` the transform type. -/
structure FRigUnit_ModifyBoneTransforms (F T : Type) where
  BoneToModify : TArray (FRigUnit_ModifyBoneTransforms_PerBone T)
  Weight : F
  WeightMinimum : F
  WeightMaximum : F
  Mode : EControlRigModifyBoneMode
  WorkData : FRigUnit_ModifyBoneTransforms_WorkData

/-- The constructor `FRigUnit_ModifyBoneTransforms_PerBone()`; `Transform`
is default-constructed. -/
def FRigUnit_ModifyBoneTransforms_PerBone.New {T : Type} [FTransformIdentity T] :
    FRigUnit_ModifyBoneTransforms_PerBone T where
  Bone := NAME_None
  Transform := FTransformIdentity.Identity

/-- The constructor `FRigUnit_ModifyBoneTransforms()`: the member
initialisers, then `BoneToModify.Add(FRigUnit_ModifyBoneTransforms_PerBone())`
on the empty array. -/
def FRigUnit_ModifyBoneTransforms.New {F T : Type} [Zero F] [One F] [FTransformIdentity T] :
    FRigUnit_ModifyBoneTransforms F T where
  BoneToModify := ⟨[] ++ [FRigUnit_ModifyBoneTransforms_PerBone.New], by simp⟩
  Weight := 1
  WeightMinimum := 0
  WeightMaximum := 1
  Mode := EControlRigModifyBoneMode.AdditiveLocal
  WorkData := ⟨[]⟩

/-- The index `FRigUnit_ModifyBoneTransforms::DetermineSpaceForPin` reads out
of a pin path once the path is known to start with `BoneToModify`: it starts
as `INDEX_NONE` and is assigned only when both `Split` calls succeed. -/
def ParsePinIndex (InPinPath : FString) : Int :=
  match Split (Replace InPinPath (TEXT "[") (TEXT ".")) (TEXT ".") with
  | some (_, Middle) =>
    match Split (Replace Middle (TEXT "]") (TEXT ".")) (TEXT ".") with
    | some (Left, _) => Atoi Left
    | none => INDEX_NONE
  | none => INDEX_NONE

/-- The method `FRigUnit_ModifyBoneTransforms::DetermineSpaceForPin`; a null
`InUserContext` is `none`. -/
def FRigUnit_ModifyBoneTransforms.DetermineSpaceForPin {F T : Type}
    (U : FRigUnit_ModifyBoneTransforms F T) (InPinPath : FString)
    (InUserContext : Option (FRigHierarchyContainer T)) : TChecked FName :=
  if StartsWith InPinPath (TEXT "BoneToModify") then
    let Index := ParsePinIndex InPinPath
    if IsValidIndex U.BoneToModify.Data Index then
      if U.Mode = EControlRigModifyBoneMode.AdditiveLocal then
        (Subscript EArray.BoneToModify U.BoneToModify.Data Index).andThen fun Entry =>
          TChecked.ret Entry.Bone
      else if U.Mode = EControlRigModifyBoneMode.OverrideLocal then
        match InUserContext with
        | some Container =>
          (Subscript EArray.BoneToModify U.BoneToModify.Data Index).andThen fun Entry =>
            let BoneIndex := Container.BoneHierarchy.GetIndex Entry.Bone
            if BoneIndex ≠ INDEX_NONE then
              (Container.BoneHierarchy.At BoneIndex).andThen fun Bone =>
                TChecked.ret Bone.ParentName
            else TChecked.ret NAME_None
        | none => TChecked.ret NAME_None
      else TChecked.ret NAME_None
    else TChecked.ret NAME_None
  else TChecked.ret NAME_None

/-! ## Hierarchy writes -/

/-- Modelled from the spec: the Space Converter of section 4.2.
`ToGlobal ParentGlobal Local` is the forward direction, the parent's global
transform composed with a local transform; `ToLocal ParentGlobal Global` is
the inverse direction, the local transform equivalent to a desired global
one. The transform arithmetic itself belongs to the host engine and stays a
parameter. -/
structure FSpaceConverter (T : Type) where
  ToGlobal : T → T → T
  ToLocal : T → T → T

/-- Modelled from the spec: the local transform stored on node `Index`. -/
def FRigBoneHierarchy.GetLocalTransform {T : Type} (H : FRigBoneHierarchy T) (Index : Nat) :
    Option T :=
  (H.Bones[Index]?).map fun Bone => Bone.LocalTransform

/-- Modelled from the spec: the global transform stored on node `Index`. -/
def FRigBoneHierarchy.GetGlobalTransform {T : Type} (H : FRigBoneHierarchy T) (Index : Nat) :
    Option T :=
  (H.Bones[Index]?).map fun Bone => Bone.GlobalTransform

/-- Modelled from the spec: the index of the parent of node `Index`, found by
resolving the node's `ParentName`; a parent that cannot be resolved makes the
node a root (`none`). -/
def FRigBoneHierarchy.GetParentIndex {T : Type} (H : FRigBoneHierarchy T) (Index : Nat) :
    Option Nat :=
  match H.Bones[Index]? with
  | none => none
  | some Bone =>
    if H.GetIndex Bone.ParentName = INDEX_NONE then none
    else some (H.GetIndex Bone.ParentName).toNat

/-- Modelled from the spec: the `k`-th node up the parent chain of node
`Index` (`k = 0` is the node itself). -/
def FRigBoneHierarchy.Ancestor {T : Type} (H : FRigBoneHierarchy T) : Nat → Nat → Option Nat
  | 0, Index => some Index
  | k + 1, Index => (H.GetParentIndex Index).bind (H.Ancestor k)

/-- Modelled from the spec: the hierarchy invariant "every node except roots
has exactly one parent, forming a forest (no cycles)": every parent chain
leaves the hierarchy within `Num()` steps. -/
def FRigBoneHierarchy.IsForest {T : Type} (H : FRigBoneHierarchy T) : Prop :=
  ∀ Index < H.Bones.length, H.Ancestor H.Bones.length Index = none

instance {T : Type} (H : FRigBoneHierarchy T) : Decidable H.IsForest :=
  inferInstanceAs (Decidable (∀ Index < H.Bones.length, H.Ancestor H.Bones.length Index = none))

/-- What no write of a transform changes: the names and the parent names, in
hierarchy order. -/
def FRigBoneHierarchy.Shape {T : Type} (H : FRigBoneHierarchy T) : List (FName × FName) :=
  H.Bones.map fun Bone => (Bone.Name, Bone.ParentName)

/-- What a re-derivation of global transforms leaves alone: the names, the
parent names and the local transforms, in hierarchy order. -/
def FRigBoneHierarchy.Skeleton {T : Type} (H : FRigBoneHierarchy T) : List (FName × FName × T) :=
  H.Bones.map fun Bone => (Bone.Name, Bone.ParentName, Bone.LocalTransform)

/-- Modelled from the spec: the forward Space Converter applied to node
`Index`: its global transform is re-derived as the parent's global transform
composed with its local transform, and for a root it is the local transform
itself. -/
def FRigBoneHierarchy.RecalculateGlobalTransform {T : Type} (Conv : FSpaceConverter T)
    (H : FRigBoneHierarchy T) (Index : Nat) : FRigBoneHierarchy T :=
  match H.Bones[Index]? with
  | none => H
  | some Bone =>
    match (H.GetParentIndex Index).bind H.GetGlobalTransform with
    | some ParentGlobal =>
      ⟨H.Bones.set Index
        { Bone with GlobalTransform := Conv.ToGlobal ParentGlobal Bone.LocalTransform }⟩
    | none => ⟨H.Bones.set Index { Bone with GlobalTransform := Bone.LocalTransform }⟩

/-- Modelled from the spec: the nodes whose parent is node `Index`, in
hierarchy order. -/
def FRigBoneHierarchy.GetDependents {T : Type} (H : FRigBoneHierarchy T) (Index : Nat) :
    List Nat :=
  (List.range H.Bones.length).filter fun Child => H.GetParentIndex Child = some Index

/-- Modelled from the spec: the top-down re-derivation pass below node
`Index`: each child's global transform is re-derived from its unchanged local
transform and its parent's updated global transform, then the pass descends
into that child. `Fuel` bounds the depth of the descent. -/
def FRigBoneHierarchy.PropagateTransform {T : Type} (Conv : FSpaceConverter T) :
    Nat → FRigBoneHierarchy T → Nat → FRigBoneHierarchy T
  | 0, H, _ => H
  | Fuel + 1, H, Index =>
    (H.GetDependents Index).foldl
      (fun Acc Child =>
        FRigBoneHierarchy.PropagateTransform Conv Fuel
          (Acc.RecalculateGlobalTransform Conv Child) Child)
      H

/-- Modelled from the spec: the mutation method that sets a node's local
transform. The node's global transform is re-derived, and with
`bPropagateToChildren` the global transforms of all its descendants are
re-derived top-down; an index outside the hierarchy changes nothing. -/
def FRigBoneHierarchy.SetLocalTransform {T : Type} (Conv : FSpaceConverter T)
    (H : FRigBoneHierarchy T) (Index : Nat) (InTransform : T) (bPropagateToChildren : Bool) :
    FRigBoneHierarchy T :=
  match H.Bones[Index]? with
  | none => H
  | some Bone =>
    let Written : FRigBoneHierarchy T :=
      ⟨H.Bones.set Index { Bone with LocalTransform := InTransform }⟩
    let Derived := Written.RecalculateGlobalTransform Conv Index
    if bPropagateToChildren then
      FRigBoneHierarchy.PropagateTransform Conv Derived.Bones.length Derived Index
    else Derived

/-- Modelled from the spec: the mutation method that sets a node's global
transform: the node's local transform becomes the input converted to local
space against the parent's global transform (the input itself for a root),
and with `bPropagateToChildren` the descendants' global transforms are
re-derived top-down. -/
def FRigBoneHierarchy.SetGlobalTransform {T : Type} (Conv : FSpaceConverter T)
    (H : FRigBoneHierarchy T) (Index : Nat) (InTransform : T) (bPropagateToChildren : Bool) :
    FRigBoneHierarchy T :=
  match H.Bones[Index]? with
  | none => H
  | some Bone =>
    let Local : T :=
      match (H.GetParentIndex Index).bind H.GetGlobalTransform with
      | some ParentGlobal => Conv.ToLocal ParentGlobal InTransform
      | none => InTransform
    let Written : FRigBoneHierarchy T :=
      ⟨H.Bones.set Index { Bone with LocalTransform := Local, GlobalTransform := InTransform }⟩
    if bPropagateToChildren then
      FRigBoneHierarchy.PropagateTransform Conv Written.Bones.length Written Index
    else Written

/-! ## Example rigs -/

/-- A translation-only transform over the integers. -/
structure FTranslation where
  X : Int
  Y : Int
  Z : Int
  deriving DecidableEq, Repr

/-- Composition of translations. -/
def FTranslation.Compose (A B : FTranslation) : FTranslation := ⟨A.X + B.X, A.Y + B.Y, A.Z + B.Z⟩

/-- The local translation that, under `Parent`, gives `Global`. -/
def FTranslation.Relative (Parent Global : FTranslation) : FTranslation :=
  ⟨Global.X - Parent.X, Global.Y - Parent.Y, Global.Z - Parent.Z⟩

instance : FTransformIdentity FTranslation := ⟨⟨0, 0, 0⟩⟩

/-- Space conversion of translations. -/
def TranslationConverter : FSpaceConverter FTranslation :=
  ⟨FTranslation.Compose, FTranslation.Relative⟩

/-- The names used in the example rigs. -/
def RootName : FName := ⟨1, 0⟩

/-- Name of the child bone of the example rig. -/
def ChildName : FName := ⟨2, 0⟩

/-- The rig `Root(local = identity), Child(parent = Root, local =
translate(1,0,0))`. -/
def RootChildRig : FRigBoneHierarchy FTranslation :=
  ⟨[⟨RootName, NAME_None, ⟨0, 0, 0⟩, ⟨0, 0, 0⟩⟩, ⟨ChildName, RootName, ⟨1, 0, 0⟩, ⟨1, 0, 0⟩⟩]⟩

/-! ## Controls and the `FRigUnit_GetControl*` getters -/

/-- Modelled from the spec: the engine's `FVector2D` over the scalar type
`F`. -/
structure FVector2D (F : Type) where
  X : F
  Y : F
  deriving DecidableEq, Repr

/-- Modelled from the spec: `FVector2D::ZeroVector`. -/
def FVector2D.ZeroVector {F : Type} [Zero F] : FVector2D F := ⟨0, 0⟩

/-- Modelled from the spec: the engine's `FRotator` over the scalar type
`F`. -/
structure FRotator (F : Type) where
  Pitch : F
  Yaw : F
  Roll : F
  deriving DecidableEq, Repr

/-- Modelled from the spec: `FRotator::ZeroRotator`, the identity
rotation. -/
def FRotator.ZeroRotator {F : Type} [Zero F] : FRotator F := ⟨0, 0, 0⟩

/-- Modelled from the spec: the typed value a control carries: "bool, float,
2D vector, 3D vector, rotation, or full transform". -/
inductive FRigControlValue (F T : Type) where
  | OfBool (Value : Bool)
  | OfFloat (Value : F)
  | OfVector2D (Value : FVector2D F)
  | OfVector (Value : FVector F)
  | OfRotator (Value : FRotator F)
  | OfTransform (Value : T)

/-- Modelled from the spec: a control, "a named node variant carrying a typed
value plus declared minimum/maximum bounds". -/
structure FRigControl (F T : Type) where
  Name : FName
  Value : FRigControlValue F T
  MinimumValue : FRigControlValue F T
  MaximumValue : FRigControlValue F T

/-- Modelled from the spec: the control hierarchy, an ordered collection of
controls. -/
structure FRigControlHierarchy (F T : Type) where
  Controls : List (FRigControl F T)

/-- Modelled from the spec: the lookup by name behind `GetIndex` on controls,
the index of the first control called `InName`, counted from `Start`. -/
def GetControlIndexFrom {F T : Type} (InName : FName) : List (FRigControl F T) → Nat → Int
  | [], _ => INDEX_NONE
  | c :: cs, Start =>
    if c.Name = InName then (Start : Int) else GetControlIndexFrom InName cs (Start + 1)

/-- Modelled from the spec: `GetIndex(name) -> index|sentinel` on the control
hierarchy. -/
def FRigControlHierarchy.GetIndex {F T : Type} (H : FRigControlHierarchy F T) (InName : FName) :
    Int :=
  GetControlIndexFrom InName H.Controls 0

/-- Modelled from the spec: a control value read as a bool; a value of
another type reads as the identity value. -/
def FRigControlValue.GetBool {F T : Type} : FRigControlValue F T → Bool
  | FRigControlValue.OfBool Value => Value
  | _ => false

/-- Modelled from the spec: a control value read as a float. -/
def FRigControlValue.GetFloat {F T : Type} [Zero F] : FRigControlValue F T → F
  | FRigControlValue.OfFloat Value => Value
  | _ => 0

/-- Modelled from the spec: a control value read as a 2D vector. -/
def FRigControlValue.GetVector2D {F T : Type} [Zero F] : FRigControlValue F T → FVector2D F
  | FRigControlValue.OfVector2D Value => Value
  | _ => FVector2D.ZeroVector

/-- Modelled from the spec: a control value read as a 3D vector. -/
def FRigControlValue.GetVector {F T : Type} [Zero F] : FRigControlValue F T → FVector F
  | FRigControlValue.OfVector Value => Value
  | _ => FVector.ZeroVector

/-- Modelled from the spec: a control value read as a rotation. -/
def FRigControlValue.GetRotator {F T : Type} [Zero F] : FRigControlValue F T → FRotator F
  | FRigControlValue.OfRotator Value => Value
  | _ => FRotator.ZeroRotator

/-- Modelled from the spec: a control value read as a full transform. -/
def FRigControlValue.GetTransform {F T : Type} [FTransformIdentity T] : FRigControlValue F T → T
  | FRigControlValue.OfTransform Value => Value
  | _ => FTransformIdentity.Identity

/-- The unit `FRigUnit_GetControlBool` (its properties). -/
structure FRigUnit_GetControlBool where
  Control : FName
  BoolValue : Bool
  CachedControlIndex : Int

/-- The constructor `FRigUnit_GetControlBool()`. -/
def FRigUnit_GetControlBool.New : FRigUnit_GetControlBool where
  Control := NAME_None
  BoolValue := false
  CachedControlIndex := INDEX_NONE

/-- Modelled from the spec: `FRigUnit_GetControlBool::Execute`, whose body is
not in the header: the name is resolved; on the sentinel the output is the
identity value, otherwise the control's current value; the hierarchy is
handed back as it came. -/
def FRigUnit_GetControlBool.Execute {F T : Type} (U : FRigUnit_GetControlBool)
    (H : FRigControlHierarchy F T) : TChecked (FRigUnit_GetControlBool × FRigControlHierarchy F T) :=
  if H.GetIndex U.Control = INDEX_NONE then
    TChecked.ret ({ U with BoolValue := false, CachedControlIndex := INDEX_NONE }, H)
  else
    (Subscript EArray.ControlHierarchy H.Controls (H.GetIndex U.Control)).andThen fun Control =>
      TChecked.ret
        ({ U with BoolValue := Control.Value.GetBool,
                  CachedControlIndex := H.GetIndex U.Control }, H)

/-- The unit `FRigUnit_GetControlFloat` (its properties). -/
structure FRigUnit_GetControlFloat (F : Type) where
  Control : FName
  FloatValue : F
  Minimum : F
  Maximum : F
  CachedControlIndex : Int

/-- The constructor `FRigUnit_GetControlFloat()`. -/
def FRigUnit_GetControlFloat.New {F : Type} [Zero F] : FRigUnit_GetControlFloat F where
  Control := NAME_None
  FloatValue := 0
  Minimum := 0
  Maximum := 0
  CachedControlIndex := INDEX_NONE

/-- Modelled from the spec: `FRigUnit_GetControlFloat::Execute`, whose body
is not in the header: on the sentinel the output is the identity value,
otherwise the control's current value with its declared minimum and
maximum. -/
def FRigUnit_GetControlFloat.Execute {F T : Type} [Zero F] (U : FRigUnit_GetControlFloat F)
    (H : FRigControlHierarchy F T) :
    TChecked (FRigUnit_GetControlFloat F × FRigControlHierarchy F T) :=
  if H.GetIndex U.Control = INDEX_NONE then
    TChecked.ret ({ U with FloatValue := 0, CachedControlIndex := INDEX_NONE }, H)
  else
    (Subscript EArray.ControlHierarchy H.Controls (H.GetIndex U.Control)).andThen fun Control =>
      TChecked.ret
        ({ U with FloatValue := Control.Value.GetFloat,
                  Minimum := Control.MinimumValue.GetFloat,
                  Maximum := Control.MaximumValue.GetFloat,
                  CachedControlIndex := H.GetIndex U.Control }, H)

/-- The unit `FRigUnit_GetControlVector2D` (its properties). -/
structure FRigUnit_GetControlVector2D (F : Type) where
  Control : FName
  Vector : FVector2D F
  Minimum : FVector2D F
  Maximum : FVector2D F
  CachedControlIndex : Int

/-- The constructor `FRigUnit_GetControlVector2D()`. -/
def FRigUnit_GetControlVector2D.New {F : Type} [Zero F] : FRigUnit_GetControlVector2D F where
  Control := NAME_None
  Vector := FVector2D.ZeroVector
  Minimum := FVector2D.ZeroVector
  Maximum := FVector2D.ZeroVector
  CachedControlIndex := INDEX_NONE

/-- Modelled from the spec: `FRigUnit_GetControlVector2D::Execute`, whose
body is not in the header. -/
def FRigUnit_GetControlVector2D.Execute {F T : Type} [Zero F]
    (U : FRigUnit_GetControlVector2D F) (H : FRigControlHierarchy F T) :
    TChecked (FRigUnit_GetControlVector2D F × FRigControlHierarchy F T) :=
  if H.GetIndex U.Control = INDEX_NONE then
    TChecked.ret ({ U with Vector := FVector2D.ZeroVector, CachedControlIndex := INDEX_NONE }, H)
  else
    (Subscript EArray.ControlHierarchy H.Controls (H.GetIndex U.Control)).andThen fun Control =>
      TChecked.ret
        ({ U with Vector := Control.Value.GetVector2D,
                  Minimum := Control.MinimumValue.GetVector2D,
                  Maximum := Control.MaximumValue.GetVector2D,
                  CachedControlIndex := H.GetIndex U.Control }, H)

/-- The unit `FRigUnit_GetControlVector` (its properties). -/
structure FRigUnit_GetControlVector (F : Type) where
  Control : FName
  Space : EBoneGetterSetterMode
  Vector : FVector F
  Minimum : FVector F
  Maximum : FVector F
  CachedControlIndex : Int

/-- The constructor `FRigUnit_GetControlVector()`. -/
def FRigUnit_GetControlVector.New {F : Type} [Zero F] : FRigUnit_GetControlVector F where
  Control := NAME_None
  Space := EBoneGetterSetterMode.GlobalSpace
  Vector := FVector.ZeroVector
  Minimum := FVector.ZeroVector
  Maximum := FVector.ZeroVector
  CachedControlIndex := INDEX_NONE

/-- Modelled from the spec: `FRigUnit_GetControlVector::Execute`, whose body
is not in the header. -/
def FRigUnit_GetControlVector.Execute {F T : Type} [Zero F] (U : FRigUnit_GetControlVector F)
    (H : FRigControlHierarchy F T) :
    TChecked (FRigUnit_GetControlVector F × FRigControlHierarchy F T) :=
  if H.GetIndex U.Control = INDEX_NONE then
    TChecked.ret ({ U with Vector := FVector.ZeroVector, CachedControlIndex := INDEX_NONE }, H)
  else
    (Subscript EArray.ControlHierarchy H.Controls (H.GetIndex U.Control)).andThen fun Control =>
      TChecked.ret
        ({ U with Vector := Control.Value.GetVector,
                  Minimum := Control.MinimumValue.GetVector,
                  Maximum := Control.MaximumValue.GetVector,
                  CachedControlIndex := H.GetIndex U.Control }, H)

/-- The unit `FRigUnit_GetControlRotator` (its properties). -/
structure FRigUnit_GetControlRotator (F : Type) where
  Control : FName
  Space : EBoneGetterSetterMode
  Rotator : FRotator F
  Minimum : FRotator F
  Maximum : FRotator F
  CachedControlIndex : Int

/-- The constructor `FRigUnit_GetControlRotator()`. -/
def FRigUnit_GetControlRotator.New {F : Type} [Zero F] : FRigUnit_GetControlRotator F where
  Control := NAME_None
  Space := EBoneGetterSetterMode.GlobalSpace
  Rotator := FRotator.ZeroRotator
  Minimum := FRotator.ZeroRotator
  Maximum := FRotator.ZeroRotator
  CachedControlIndex := INDEX_NONE

/-- Modelled from the spec: `FRigUnit_GetControlRotator::Execute`, whose body
is not in the header. -/
def FRigUnit_GetControlRotator.Execute {F T : Type} [Zero F] (U : FRigUnit_GetControlRotator F)
    (H : FRigControlHierarchy F T) :
    TChecked (FRigUnit_GetControlRotator F × FRigControlHierarchy F T) :=
  if H.GetIndex U.Control = INDEX_NONE then
    TChecked.ret ({ U with Rotator := FRotator.ZeroRotator, CachedControlIndex := INDEX_NONE }, H)
  else
    (Subscript EArray.ControlHierarchy H.Controls (H.GetIndex U.Control)).andThen fun Control =>
      TChecked.ret
        ({ U with Rotator := Control.Value.GetRotator,
                  Minimum := Control.MinimumValue.GetRotator,
                  Maximum := Control.MaximumValue.GetRotator,
                  CachedControlIndex := H.GetIndex U.Control }, H)

/-- The unit `FRigUnit_GetControlTransform` (its properties). -/
structure FRigUnit_GetControlTransform (T : Type) where
  Control : FName
  Space : EBoneGetterSetterMode
  Transform : T
  Minimum : T
  Maximum : T
  CachedControlIndex : Int

/-- The constructor `FRigUnit_GetControlTransform()`. -/
def FRigUnit_GetControlTransform.New {T : Type} [FTransformIdentity T] :
    FRigUnit_GetControlTransform T where
  Control := NAME_None
  Space := EBoneGetterSetterMode.GlobalSpace
  Transform := FTransformIdentity.Identity
  Minimum := FTransformIdentity.Identity
  Maximum := FTransformIdentity.Identity
  CachedControlIndex := INDEX_NONE

/-- Modelled from the spec: `FRigUnit_GetControlTransform::Execute`, whose
body is not in the header. -/
def FRigUnit_GetControlTransform.Execute {F T : Type} [FTransformIdentity T]
    (U : FRigUnit_GetControlTransform T) (H : FRigControlHierarchy F T) :
    TChecked (FRigUnit_GetControlTransform T × FRigControlHierarchy F T) :=
  if H.GetIndex U.Control = INDEX_NONE then
    TChecked.ret
      ({ U with Transform := FTransformIdentity.Identity, CachedControlIndex := INDEX_NONE }, H)
  else
    (Subscript EArray.ControlHierarchy H.Controls (H.GetIndex U.Control)).andThen fun Control =>
      TChecked.ret
        ({ U with Transform := Control.Value.GetTransform,
                  Minimum := Control.MinimumValue.GetTransform,
                  Maximum := Control.MaximumValue.GetTransform,
                  CachedControlIndex := H.GetIndex U.Control }, H)

/-- The example rig as a unit's user context. -/
def RootChildContainer : FRigHierarchyContainer FTranslation := ⟨RootChildRig⟩

/-- A name no bone or control of the example rigs carries. -/
def StrayName : FName := ⟨9, 0⟩

/-- A `SetBoneTranslation` unit targeting the child bone, otherwise as
constructed (local space). -/
def ChildTranslationUnit : FRigUnit_SetBoneTranslation Int :=
  { (FRigUnit_SetBoneTranslation.New : FRigUnit_SetBoneTranslation Int) with Bone := ChildName }

/-- A `SetBoneTranslation` unit targeting a bone the example rig lacks. -/
def StrayTranslationUnit : FRigUnit_SetBoneTranslation Int :=
  { (FRigUnit_SetBoneTranslation.New : FRigUnit_SetBoneTranslation Int) with Bone := StrayName }

/-- A `ModifyBoneTransforms` unit listing the root and the child bone, in the
given mode and otherwise as constructed. -/
def TwoBoneUnit (Mode : EControlRigModifyBoneMode) : FRigUnit_ModifyBoneTransforms Int FTranslation :=
  { (FRigUnit_ModifyBoneTransforms.New : FRigUnit_ModifyBoneTransforms Int FTranslation) with
    BoneToModify := ⟨[⟨RootName, ⟨0, 5, 0⟩⟩, ⟨ChildName, ⟨0, 0, 2⟩⟩], by decide⟩
    Mode := Mode }

/-- A control hierarchy with a single float control. -/
def SliderControls : FRigControlHierarchy Int FTranslation :=
  ⟨[⟨⟨7, 0⟩, FRigControlValue.OfFloat 3, FRigControlValue.OfFloat 0, FRigControlValue.OfFloat 10⟩]⟩

/-! ## Lemmas on the string primitives -/

theorem IsDigit_toLower {c : Char} (h : IsDigit c = true) : c.toLower = c := by
  simp only [IsDigit, Bool.and_eq_true, decide_eq_true_eq] at h
  unfold Char.toLower
  simp only []
  split
  · omega
  · rfl

/-- A digit never matches a character that is its own lower case and is not
a digit. -/
theorem IsDigit_not_equals {c p : Char} (h : IsDigit c = true) (hp : p.toLower = p)
    (hpd : IsDigit p = false) : CharEqualsIgnoreCase c p = false := by
  unfold CharEqualsIgnoreCase
  rw [IsDigit_toLower h, hp]
  by_contra hne
  simp only [Bool.not_eq_false, beq_iff_eq] at hne
  subst hne
  rw [h] at hpd
  exact Bool.noConfusion hpd

theorem Replace_single (S : FString) (a b : Char) :
    Replace S [a] [b] = S.map fun c => if CharEqualsIgnoreCase c a then b else c := by
  have hscan : ∀ S : FString,
      ReplaceScan [a] [b] 0 S = S.map fun c => if CharEqualsIgnoreCase c a then b else c := by
    intro S
    induction S with
    | nil => rfl
    | cons c cs ih =>
      simp only [ReplaceScan, MatchesAt, Bool.and_true, List.length_singleton, Nat.sub_self,
        List.map_cons, ih]
      split <;> simp
  simp only [Replace, List.isEmpty_cons, Bool.false_eq_true, if_false, hscan]

theorem Split_single (Pre Post : FString) (c p : Char)
    (hPre : ∀ x ∈ Pre, CharEqualsIgnoreCase x p = false) (hc : CharEqualsIgnoreCase c p = true) :
    Split (Pre ++ c :: Post) [p] = some (Pre, Post) := by
  have hfind : FindScan [p] (Pre ++ c :: Post) = some Pre.length := by
    induction Pre with
    | nil => simp [FindScan, MatchesAt, hc]
    | cons x xs ih =>
      have hx : CharEqualsIgnoreCase x p = false := hPre x (List.mem_cons_self _ _)
      have hxs : ∀ y ∈ xs, CharEqualsIgnoreCase y p = false :=
        fun y hy => hPre y (List.mem_cons_of_mem _ hy)
      simp [FindScan, MatchesAt, hx, ih hxs]
  simp [Split, Find, hfind]

theorem map_replace_digits (D : FString) (p b : Char) (hD : ∀ c ∈ D, IsDigit c = true)
    (hp : p.toLower = p) (hpd : IsDigit p = false) :
    (D.map fun c => if CharEqualsIgnoreCase c p then b else c) = D := by
  induction D with
  | nil => rfl
  | cons c cs ih =>
    have hc := IsDigit_not_equals (hD c (List.mem_cons_self _ _)) hp hpd
    simp only [List.map_cons, hc, Bool.false_eq_true, if_false]
    rw [ih fun y hy => hD y (List.mem_cons_of_mem _ hy)]

theorem digitChar_IsDigit {k : Nat} (h : k < 10) :
    IsDigit (Nat.digitChar k) = true ∧ (Nat.digitChar k).toNat - 48 = k := by
  interval_cases k <;> exact ⟨rfl, rfl⟩

theorem AtoiDigits_append (L Rest : FString) (hL : ∀ c ∈ L, IsDigit c = true) (Acc : Nat) :
    AtoiDigits Acc (L ++ Rest)
      = AtoiDigits (L.foldl (fun a c => a * 10 + (c.toNat - 48)) Acc) Rest := by
  induction L generalizing Acc with
  | nil => rfl
  | cons c cs ih =>
    simp only [List.cons_append, AtoiDigits, hL c (List.mem_cons_self _ _), if_true,
      List.foldl_cons]
    exact ih (fun y hy => hL y (List.mem_cons_of_mem _ hy)) _

theorem toDigitsCore_spec (Fuel : Nat) : ∀ (n : Nat) (ds : List Char), n < Fuel →
    ∃ L : List Char, Nat.toDigitsCore 10 Fuel n ds = L ++ ds ∧ L ≠ [] ∧
      (∀ c ∈ L, IsDigit c = true) ∧ L.foldl (fun a c => a * 10 + (c.toNat - 48)) 0 = n := by
  induction Fuel with
  | zero => intro n ds h; omega
  | succ Fuel ih =>
    intro n ds h
    have hd := digitChar_IsDigit (Nat.mod_lt n (by decide : 10 > 0))
    by_cases hz : n / 10 = 0
    · refine ⟨[Nat.digitChar (n % 10)], ?_, by simp, ?_, ?_⟩
      · simp [Nat.toDigitsCore, hz]
      · intro c hc
        rw [List.mem_singleton] at hc
        rw [hc]; exact hd.1
      · simp only [List.foldl_cons, List.foldl_nil, Nat.zero_mul, Nat.zero_add, hd.2]
        omega
    · obtain ⟨L, hL, _, hdig, hval⟩ := ih (n / 10) (Nat.digitChar (n % 10) :: ds) (by omega)
      refine ⟨L ++ [Nat.digitChar (n % 10)], ?_, by simp, ?_, ?_⟩
      · simp [Nat.toDigitsCore, hz, hL]
      · intro c hc
        rcases List.mem_append.mp hc with hc | hc
        · exact hdig c hc
        · rw [List.mem_singleton] at hc
          rw [hc]; exact hd.1
      · rw [List.foldl_append, hval]
        simp only [List.foldl_cons, List.foldl_nil, hd.2]
        omega

theorem Decimal_spec (i : Nat) : Decimal i ≠ [] ∧ (∀ c ∈ Decimal i, IsDigit c = true) ∧
    AtoiDigits 0 (Decimal i) = i := by
  obtain ⟨L, hL, hne, hdig, hval⟩ := toDigitsCore_spec (i + 1) i [] (Nat.lt_succ_self i)
  have hD : Decimal i = L := by
    show Nat.toDigitsCore 10 (i + 1) i [] = L
    rw [hL, List.append_nil]
  rw [hD]
  refine ⟨hne, hdig, ?_⟩
  have := AtoiDigits_append L [] hdig 0
  rw [List.append_nil] at this
  rw [this, hval]
  rfl

theorem WrapInt32_of_lt {i : Nat} (h : i < 2 ^ 31) : WrapInt32 (i : Int) = i := by
  unfold WrapInt32
  have h1 : (i : Int) < 2 ^ 31 := by exact_mod_cast h
  have h2 : (0 : Int) ≤ i := Int.natCast_nonneg i
  rw [Int.emod_eq_of_lt (by omega) (by omega)]
  omega

theorem Atoi_Decimal {i : Nat} (h : i < 2 ^ 31) : Atoi (Decimal i) = i := by
  obtain ⟨hne, hdig, hval⟩ := Decimal_spec i
  cases hD : Decimal i with
  | nil => exact absurd hD hne
  | cons c cs =>
    have hc : IsDigit c = true := hdig c (by rw [hD]; exact List.mem_cons_self _ _)
    have hw : IsWhitespace c = false := by
      simp only [IsDigit, Bool.and_eq_true, decide_eq_true_eq] at hc
      simp only [IsWhitespace, Bool.or_eq_false_iff, beq_eq_false_iff_ne, ne_eq,
        Bool.and_eq_false_iff, decide_eq_false_iff_not]
      omega
    have hm : c ≠ '-' := by
      intro he; rw [he] at hc; exact absurd hc (by decide)
    have hp : c ≠ '+' := by
      intro he; rw [he] at hc; exact absurd hc (by decide)
    have hdrop : (c :: cs).dropWhile IsWhitespace = c :: cs := by
      simp [List.dropWhile, hw]
    unfold Atoi
    rw [hdrop]
    rw [hD] at hval
    split
    · rename_i heq; exact absurd (List.cons.inj heq).1 hm
    · rename_i heq; exact absurd (List.cons.inj heq).1 hp
    · rename_i heq
      rw [hval]; exact WrapInt32_of_lt h

/-- The pin path `BoneToModify[<i>]<Rest>` parses back to `i`. -/
theorem ParsePinIndex_wellFormed (i : Nat) (h : i < 2 ^ 31) (Rest : FString) :
    ParsePinIndex (TEXT "BoneToModify[" ++ Decimal i ++ TEXT "]" ++ Rest) = i := by
  obtain ⟨_, hdig, _⟩ := Decimal_spec i
  have hpath : TEXT "BoneToModify[" ++ Decimal i ++ TEXT "]" ++ Rest
      = TEXT "BoneToModify" ++ '[' :: (Decimal i ++ ']' :: Rest) := by
    simp [TEXT]
  unfold ParsePinIndex
  have hT1 : TEXT "[" = ['['] := rfl
  have hT2 : TEXT "." = ['.'] := rfl
  have hT3 : TEXT "]" = [']'] := rfl
  rw [hpath, hT1, hT2, hT3, Replace_single, List.map_append, List.map_cons, List.map_append,
    List.map_cons, map_replace_digits (Decimal i) '[' '.' hdig (by decide) (by decide)]
  have hP : (TEXT "BoneToModify").map (fun c => if CharEqualsIgnoreCase c '[' then '.' else c)
      = TEXT "BoneToModify" := by decide
  have h1 : (if CharEqualsIgnoreCase '[' '[' then '.' else '[') = '.' := by decide
  have h2 : (if CharEqualsIgnoreCase ']' '[' then '.' else ']') = ']' := by decide
  rw [hP, h1, h2]
  rw [Split_single (TEXT "BoneToModify") _ '.' '.' (by decide) (by decide)]
  simp only []
  rw [Replace_single, List.map_append, List.map_cons,
    map_replace_digits (Decimal i) ']' '.' hdig (by decide) (by decide)]
  have h3 : (if CharEqualsIgnoreCase ']' ']' then '.' else ']') = '.' := by decide
  rw [h3]
  rw [Split_single (Decimal i) _ '.' '.'
    (fun x hx => IsDigit_not_equals (hdig x hx) (by decide) (by decide)) (by decide)]
  simp only []
  exact Atoi_Decimal h

theorem StartsWith_of_prefixed {P S : FString} (hP : P ≠ []) (h : P <+: S) :
    StartsWith S P = true := by
  obtain ⟨R, rfl⟩ := h
  have hm : ∀ P : FString, MatchesAt P (P ++ R) = true := by
    intro P
    induction P with
    | nil => rfl
    | cons c cs ih => simp [MatchesAt, CharEqualsIgnoreCase, ih]
  cases P with
  | nil => exact absurd rfl hP
  | cons c cs =>
    have := hm (c :: cs)
    simp only [StartsWith, List.isEmpty_cons, Bool.not_false, Bool.true_and]
    exact this

/-- The prefix test of the code in plain terms: the prefix is not empty and,
once both texts are put in lower case, it is a literal prefix of the
string. -/
theorem StartsWith_iff_lower (S P : FString) :
    StartsWith S P = true ↔ P ≠ [] ∧ P.map Char.toLower <+: S.map Char.toLower := by
  have hm : ∀ (P S : FString),
      MatchesAt P S = true ↔ P.map Char.toLower <+: S.map Char.toLower := by
    intro P
    induction P with
    | nil => intro S; simp [MatchesAt]
    | cons p ps ih =>
      intro S
      cases S with
      | nil => simp [MatchesAt]
      | cons c cs =>
        simp only [MatchesAt, CharEqualsIgnoreCase, Bool.and_eq_true, beq_iff_eq, ih cs,
          List.map_cons, List.cons_prefix_cons]
        constructor
        · rintro ⟨h1, h2⟩; exact ⟨h1.symm, h2⟩
        · rintro ⟨h1, h2⟩; exact ⟨h1.symm, h2⟩
  cases P with
  | nil => simp [StartsWith]
  | cons p ps =>
    simp only [StartsWith, List.isEmpty_cons, Bool.not_false, Bool.true_and, ne_eq,
      reduceCtorEq, not_false_eq_true, true_and]
    exact hm (p :: ps) S

/-! ## Lemmas on the hierarchy lookup -/

theorem GetIndexFrom_resolved {T : Type} (InName : FName) (Bones : List (FRigBone T)) (Start : Nat)
    (h : GetIndexFrom InName Bones Start ≠ INDEX_NONE) :
    ∃ k Bone, GetIndexFrom InName Bones Start = ((Start + k : Nat) : Int) ∧
      Bones[k]? = some Bone ∧ Bone.Name = InName := by
  induction Bones generalizing Start with
  | nil => exact absurd rfl h
  | cons b bs ih =>
    by_cases hb : b.Name = InName
    · exact ⟨0, b, by simp [GetIndexFrom, hb], by simp, hb⟩
    · have hrec : GetIndexFrom InName (b :: bs) Start = GetIndexFrom InName bs (Start + 1) := by
        simp [GetIndexFrom, hb]
      rw [hrec] at h
      obtain ⟨k, Bone, hk, hBone, hName⟩ := ih (Start + 1) h
      refine ⟨k + 1, Bone, ?_, by simpa using hBone, hName⟩
      rw [hrec, hk]
      congr 1
      omega

theorem GetIndex_resolved {T : Type} (H : FRigBoneHierarchy T) (InName : FName)
    (h : H.GetIndex InName ≠ INDEX_NONE) :
    ∃ (k : Nat) (Bone : FRigBone T), H.GetIndex InName = (k : Int) ∧ H.Bones[k]? = some Bone ∧
      Bone.Name = InName := by
  obtain ⟨k, Bone, hk, hBone, hName⟩ := GetIndexFrom_resolved InName H.Bones 0 h
  exact ⟨k, Bone, by simpa [FRigBoneHierarchy.GetIndex] using hk, hBone, hName⟩

theorem Subscript_of_getElem? {α : Type} (Id : EArray) (A : List α) (k : Nat) (a : α)
    (h : A[k]? = some a) :
    Subscript Id A (k : Int) = ⟨some a, [⟨Id, (k : Int), A.length⟩]⟩ := by
  have hk : k < A.length := by
    by_contra hge
    rw [List.getElem?_eq_none (by omega)] at h
    exact Option.noConfusion h
  simp [Subscript, IsValidIndex, hk, h]

/-- Looking up the bone a name resolves to and reading its parent name. -/
theorem At_GetIndex_ParentName {T : Type} (H : FRigBoneHierarchy T) (InName : FName)
    (h : H.GetIndex InName ≠ INDEX_NONE) :
    ∃ Bone, H.Bones[(H.GetIndex InName).toNat]? = some Bone ∧ Bone.Name = InName ∧
      ((H.At (H.GetIndex InName)).andThen fun B => TChecked.ret B.ParentName)
        = ⟨some Bone.ParentName,
            [⟨EArray.BoneHierarchy, H.GetIndex InName, H.Bones.length⟩]⟩ := by
  obtain ⟨k, Bone, hk, hBone, hName⟩ := GetIndex_resolved H InName h
  refine ⟨Bone, by rw [hk]; simpa using hBone, hName, ?_⟩
  rw [hk, FRigBoneHierarchy.At, Subscript_of_getElem? _ _ _ _ hBone]
  simp [TChecked.andThen, TChecked.ret]

/-! ## `FRigUnit_SetBoneTranslation::DetermineSpaceForPin` -/

/-- C1: for a unit with `Space = LocalSpace`, a pin path that starts with
`Translation` and a non-null container in which the unit's `Bone` resolves,
`DetermineSpaceForPin` returns exactly the `ParentName` stored on the bone at
the resolved index of the container's bone hierarchy (the bone carrying that
name). The prefix test is the code's `StartsWith`, which a path literally
beginning with `Translation` passes (`StartsWith_of_prefixed`). -/
theorem SetBoneTranslation_DetermineSpaceForPin_parent {F T : Type}
    (U : FRigUnit_SetBoneTranslation F) (InPinPath : FString)
    (Container : FRigHierarchyContainer T)
    (hSpace : U.Space = EBoneGetterSetterMode.LocalSpace)
    (hPin : StartsWith InPinPath (TEXT "Translation") = true)
    (hBone : Container.BoneHierarchy.GetIndex U.Bone ≠ INDEX_NONE) :
    ∃ Bone : FRigBone T,
      Container.BoneHierarchy.Bones[(Container.BoneHierarchy.GetIndex U.Bone).toNat]? = some Bone ∧
      Bone.Name = U.Bone ∧
      (U.DetermineSpaceForPin InPinPath (some Container)).Value = some Bone.ParentName := by
  obtain ⟨Bone, hAt, hName, hRead⟩ := At_GetIndex_ParentName Container.BoneHierarchy U.Bone hBone
  refine ⟨Bone, hAt, hName, ?_⟩
  unfold FRigUnit_SetBoneTranslation.DetermineSpaceForPin
  simp only [hPin, hSpace, decide_True, Bool.and_self, if_true, ne_eq, hBone, not_false_eq_true,
    hRead]

/-- C9 (as amended): `DetermineSpaceForPin` never fails (no range check is
violated on any input), and it returns `NAME_None` whenever
`Space = GlobalSpace`, or the pin path does not start with `Translation` even
when letter case is ignored (the `StartsWith` test of the code fails, see
`StartsWith_iff_lower`), or the context is null, or the `Bone` name does not
resolve in the container's bone hierarchy; in each of these cases, the last
included, the hierarchy is never subscripted. -/
theorem SetBoneTranslation_DetermineSpaceForPin_none {F T : Type}
    (U : FRigUnit_SetBoneTranslation F) (InPinPath : FString)
    (InUserContext : Option (FRigHierarchyContainer T)) :
    (U.DetermineSpaceForPin InPinPath InUserContext).Value ≠ none ∧
    ((U.Space = EBoneGetterSetterMode.GlobalSpace ∨
        StartsWith InPinPath (TEXT "Translation") = false ∨
        InUserContext = none ∨
        (∃ Container, InUserContext = some Container ∧
          Container.BoneHierarchy.GetIndex U.Bone = INDEX_NONE)) →
      (U.DetermineSpaceForPin InPinPath InUserContext).Value = some NAME_None ∧
      (U.DetermineSpaceForPin InPinPath InUserContext).Subscripts = []) := by
  constructor
  · unfold FRigUnit_SetBoneTranslation.DetermineSpaceForPin
    split
    · cases InUserContext with
      | none => simp [TChecked.ret]
      | some Container =>
        by_cases hBone : Container.BoneHierarchy.GetIndex U.Bone = INDEX_NONE
        · simp [hBone, TChecked.ret]
        · obtain ⟨Bone, _, _, hRead⟩ :=
            At_GetIndex_ParentName Container.BoneHierarchy U.Bone hBone
          simp [hBone, hRead]
    · simp [TChecked.ret]
  · intro h
    unfold FRigUnit_SetBoneTranslation.DetermineSpaceForPin
    rcases h with h | h | h | ⟨Container, h, hBone⟩
    · simp [h, TChecked.ret]
    · simp [h, TChecked.ret]
    · subst h
      split <;> simp [TChecked.ret]
    · subst h
      split <;> simp [hBone, TChecked.ret]

/-! ## `FRigUnit_ModifyBoneTransforms::DetermineSpaceForPin` -/

theorem StartsWith_BoneToModify (Rest : FString) :
    StartsWith (TEXT "BoneToModify[" ++ Rest) (TEXT "BoneToModify") = true :=
  StartsWith_of_prefixed (by decide) ⟨'[' :: Rest, by simp [TEXT]⟩

/-- The unit's lookup on a well-formed pin path: the index parsed is `i`, it
is valid, and the subscript yields the entry stored at `i`. -/
theorem wellFormed_lookup {T : Type} (A : List (FRigUnit_ModifyBoneTransforms_PerBone T))
    (i : Nat) (Entry : FRigUnit_ModifyBoneTransforms_PerBone T) (hEntry : A[i]? = some Entry)
    (hNum : A.length ≤ 2147483647) (Rest : FString) :
    ParsePinIndex (TEXT "BoneToModify[" ++ Decimal i ++ TEXT "]" ++ Rest) = (i : Int) ∧
    StartsWith (TEXT "BoneToModify[" ++ Decimal i ++ TEXT "]" ++ Rest) (TEXT "BoneToModify")
      = true ∧
    IsValidIndex A (i : Int) = true ∧
    Subscript EArray.BoneToModify A (i : Int)
      = ⟨some Entry, [⟨EArray.BoneToModify, (i : Int), A.length⟩]⟩ := by
  have hi : i < A.length := by
    by_contra hge
    rw [List.getElem?_eq_none (by omega)] at hEntry
    exact Option.noConfusion hEntry
  refine ⟨ParsePinIndex_wellFormed i (by omega) Rest, ?_, by simp [IsValidIndex, hi],
    Subscript_of_getElem? _ _ _ _ hEntry⟩
  rw [List.append_assoc, List.append_assoc]
  exact StartsWith_BoneToModify _

theorem andThen_some {α β : Type} (a : α) (L : List FSubscript) (f : α → TChecked β) :
    TChecked.andThen ⟨some a, L⟩ f = ⟨(f a).Value, L ++ (f a).Subscripts⟩ := rfl

/-- The unit's result once the pin path passes the prefix test and parses to
an index `k` at which `BoneToModify` holds `Entry`, mode `AdditiveLocal`. -/
theorem DetermineSpaceForPin_additive {F T : Type} (U : FRigUnit_ModifyBoneTransforms F T)
    (InPinPath : FString) (InUserContext : Option (FRigHierarchyContainer T))
    (hStart : StartsWith InPinPath (TEXT "BoneToModify") = true)
    (k : Nat) (hParse : ParsePinIndex InPinPath = (k : Int))
    (Entry : FRigUnit_ModifyBoneTransforms_PerBone T) (hEntry : U.BoneToModify.Data[k]? = some Entry)
    (hMode : U.Mode = EControlRigModifyBoneMode.AdditiveLocal) :
    U.DetermineSpaceForPin InPinPath InUserContext
      = ⟨some Entry.Bone, [⟨EArray.BoneToModify, (k : Int), U.BoneToModify.Data.length⟩]⟩ := by
  have hSub := Subscript_of_getElem? EArray.BoneToModify U.BoneToModify.Data k Entry hEntry
  have hValid : IsValidIndex U.BoneToModify.Data (k : Int) = true := by
    have hk : k < U.BoneToModify.Data.length := by
      by_contra hge
      rw [List.getElem?_eq_none (by omega)] at hEntry
      exact Option.noConfusion hEntry
    simp [IsValidIndex, hk]
  unfold FRigUnit_ModifyBoneTransforms.DetermineSpaceForPin
  simp only [hStart, if_true, hParse, hValid, hMode, hSub, andThen_some, TChecked.ret,
    List.append_nil]

/-- The unit's result once the pin path passes the prefix test and parses to
an index `k` at which `BoneToModify` holds `Entry`, mode `OverrideLocal`. -/
theorem DetermineSpaceForPin_override {F T : Type} (U : FRigUnit_ModifyBoneTransforms F T)
    (InPinPath : FString) (InUserContext : Option (FRigHierarchyContainer T))
    (hStart : StartsWith InPinPath (TEXT "BoneToModify") = true)
    (k : Nat) (hParse : ParsePinIndex InPinPath = (k : Int))
    (Entry : FRigUnit_ModifyBoneTransforms_PerBone T) (hEntry : U.BoneToModify.Data[k]? = some Entry)
    (hMode : U.Mode = EControlRigModifyBoneMode.OverrideLocal) :
    U.DetermineSpaceForPin InPinPath InUserContext =
      match InUserContext with
      | none => TChecked.ret NAME_None
      | some Container =>
        TChecked.andThen ⟨some Entry, [⟨EArray.BoneToModify, (k : Int), U.BoneToModify.Data.length⟩]⟩
          fun E =>
            if Container.BoneHierarchy.GetIndex E.Bone ≠ INDEX_NONE then
              (Container.BoneHierarchy.At (Container.BoneHierarchy.GetIndex E.Bone)).andThen
                fun Bone => TChecked.ret Bone.ParentName
            else TChecked.ret NAME_None := by
  have hSub := Subscript_of_getElem? EArray.BoneToModify U.BoneToModify.Data k Entry hEntry
  have hValid : IsValidIndex U.BoneToModify.Data (k : Int) = true := by
    have hk : k < U.BoneToModify.Data.length := by
      by_contra hge
      rw [List.getElem?_eq_none (by omega)] at hEntry
      exact Option.noConfusion hEntry
    simp [IsValidIndex, hk]
  unfold FRigUnit_ModifyBoneTransforms.DetermineSpaceForPin
  simp only [hStart, if_true, hParse, hValid, hMode, hSub, reduceCtorEq, if_false]
  cases InUserContext <;> rfl

/-- C7: in mode `AdditiveLocal`, for every `BoneToModify` list, every index
`i` inside it, every suffix `s` and every context, null or not, the pin path
`"BoneToModify[" + decimal(i) + "]." + s` is parsed back to the index `i` and
`DetermineSpaceForPin` returns exactly `BoneToModify[i].Bone`. -/
theorem ModifyBoneTransforms_DetermineSpaceForPin_additiveLocal {F T : Type}
    (U : FRigUnit_ModifyBoneTransforms F T)
    (hMode : U.Mode = EControlRigModifyBoneMode.AdditiveLocal)
    (i : Nat) (Entry : FRigUnit_ModifyBoneTransforms_PerBone T)
    (hEntry : U.BoneToModify.Data[i]? = some Entry)
    (s : FString) (InUserContext : Option (FRigHierarchyContainer T)) :
    ParsePinIndex (TEXT "BoneToModify[" ++ Decimal i ++ TEXT "]." ++ s) = (i : Int) ∧
    (U.DetermineSpaceForPin (TEXT "BoneToModify[" ++ Decimal i ++ TEXT "]." ++ s)
      InUserContext).Value = some Entry.Bone := by
  have hPath : TEXT "BoneToModify[" ++ Decimal i ++ TEXT "]." ++ s
      = TEXT "BoneToModify[" ++ Decimal i ++ TEXT "]" ++ ('.' :: s) := by
    simp [TEXT]
  obtain ⟨hParse, hStart, _, _⟩ :=
    wellFormed_lookup U.BoneToModify.Data i Entry hEntry U.BoneToModify.NumFits ('.' :: s)
  rw [hPath]
  refine ⟨hParse, ?_⟩
  rw [DetermineSpaceForPin_additive U _ InUserContext hStart i hParse Entry hEntry hMode]

/-- C8: in mode `OverrideLocal`, for every well-formed pin path
`"BoneToModify[" + decimal(i) + "]" + rest` with `i` inside the `BoneToModify`
list: with a non-null
container in which `BoneToModify[i].Bone` resolves, `DetermineSpaceForPin`
returns the `ParentName` of the bone that name resolves to; with a null
container, or a container in which the name does not resolve, it returns
`NAME_None`. -/
theorem ModifyBoneTransforms_DetermineSpaceForPin_overrideLocal {F T : Type}
    (U : FRigUnit_ModifyBoneTransforms F T)
    (hMode : U.Mode = EControlRigModifyBoneMode.OverrideLocal)
    (i : Nat) (Entry : FRigUnit_ModifyBoneTransforms_PerBone T)
    (hEntry : U.BoneToModify.Data[i]? = some Entry) (Rest : FString) :
    (∀ Container : FRigHierarchyContainer T,
      Container.BoneHierarchy.GetIndex Entry.Bone ≠ INDEX_NONE →
      ∃ Bone : FRigBone T,
        Container.BoneHierarchy.Bones[(Container.BoneHierarchy.GetIndex Entry.Bone).toNat]?
          = some Bone ∧
        Bone.Name = Entry.Bone ∧
        (U.DetermineSpaceForPin (TEXT "BoneToModify[" ++ Decimal i ++ TEXT "]" ++ Rest)
          (some Container)).Value = some Bone.ParentName) ∧
    (U.DetermineSpaceForPin (TEXT "BoneToModify[" ++ Decimal i ++ TEXT "]" ++ Rest)
      none).Value = some NAME_None ∧
    (∀ Container : FRigHierarchyContainer T,
      Container.BoneHierarchy.GetIndex Entry.Bone = INDEX_NONE →
      (U.DetermineSpaceForPin (TEXT "BoneToModify[" ++ Decimal i ++ TEXT "]" ++ Rest)
        (some Container)).Value = some NAME_None) := by
  obtain ⟨hParse, hStart, _, _⟩ :=
    wellFormed_lookup U.BoneToModify.Data i Entry hEntry U.BoneToModify.NumFits Rest
  refine ⟨?_, ?_, ?_⟩
  · intro Container hBone
    obtain ⟨Bone, hAt, hName, hRead⟩ :=
      At_GetIndex_ParentName Container.BoneHierarchy Entry.Bone hBone
    refine ⟨Bone, hAt, hName, ?_⟩
    rw [DetermineSpaceForPin_override U _ _ hStart i hParse Entry hEntry hMode]
    simp only [andThen_some, ne_eq, hBone, not_false_eq_true, if_true, hRead]
  · rw [DetermineSpaceForPin_override U _ _ hStart i hParse Entry hEntry hMode]
    rfl
  · intro Container hBone
    rw [DetermineSpaceForPin_override U _ _ hStart i hParse Entry hEntry hMode]
    simp only [andThen_some, ne_eq, hBone, not_true_eq_false, if_false, TChecked.ret]

/-- C10 (as amended): `DetermineSpaceForPin` gives no space advice
(`NAME_None`), for every pin path and every context, when `Mode` is
`OverrideGlobal`, `AdditiveGlobal` or `Max`; in every mode when the index
parsed from the pin path is negative or at least the length of
`BoneToModify`; and when the pin path does not start with `BoneToModify`
even when letter case is ignored (the `StartsWith` test of the code fails,
see `StartsWith_iff_lower`). On every input the call completes without a
failed range check, and each subscript of `BoneToModify` it makes is in
bounds. -/
theorem ModifyBoneTransforms_DetermineSpaceForPin_none {F T : Type}
    (U : FRigUnit_ModifyBoneTransforms F T) (InPinPath : FString)
    (InUserContext : Option (FRigHierarchyContainer T)) :
    ((U.Mode = EControlRigModifyBoneMode.OverrideGlobal ∨
        U.Mode = EControlRigModifyBoneMode.AdditiveGlobal ∨
        U.Mode = EControlRigModifyBoneMode.Max ∨
        ParsePinIndex InPinPath < 0 ∨
        (U.BoneToModify.Data.length : Int) ≤ ParsePinIndex InPinPath ∨
        StartsWith InPinPath (TEXT "BoneToModify") = false) →
      (U.DetermineSpaceForPin InPinPath InUserContext).Value = some NAME_None) ∧
    (U.DetermineSpaceForPin InPinPath InUserContext).Value ≠ none ∧
    (∀ s ∈ (U.DetermineSpaceForPin InPinPath InUserContext).Subscripts,
      s.Array = EArray.BoneToModify → s.Num = U.BoneToModify.Data.length ∧ s.InBounds) := by
  refine ⟨?_, ?_⟩
  · intro h
    unfold FRigUnit_ModifyBoneTransforms.DetermineSpaceForPin
    rcases h with h | h | h | h | h | h
    · simp [h, TChecked.ret]
    · simp [h, TChecked.ret]
    · simp [h, TChecked.ret]
    · have hv : IsValidIndex U.BoneToModify.Data (ParsePinIndex InPinPath) = false := by
        simp only [IsValidIndex, Bool.and_eq_false_iff, decide_eq_false_iff_not]
        left; omega
      simp [hv, TChecked.ret]
    · have hv : IsValidIndex U.BoneToModify.Data (ParsePinIndex InPinPath) = false := by
        simp only [IsValidIndex, Bool.and_eq_false_iff, decide_eq_false_iff_not]
        right; omega
      simp [hv, TChecked.ret]
    · simp [h, TChecked.ret]
  by_cases hStart : StartsWith InPinPath (TEXT "BoneToModify") = true
  swap
  · unfold FRigUnit_ModifyBoneTransforms.DetermineSpaceForPin
    simp [hStart, TChecked.ret]
  by_cases hv : IsValidIndex U.BoneToModify.Data (ParsePinIndex InPinPath) = true
  swap
  · unfold FRigUnit_ModifyBoneTransforms.DetermineSpaceForPin
    simp [hStart, hv, TChecked.ret]
  have hv2 := hv
  simp only [IsValidIndex, Bool.and_eq_true, decide_eq_true_eq] at hv2
  obtain ⟨k, hk⟩ := Int.eq_ofNat_of_zero_le hv2.1
  have hklt : k < U.BoneToModify.Data.length := by omega
  have hEntry : U.BoneToModify.Data[k]? = some (U.BoneToModify.Data[k]) := List.getElem?_eq_getElem hklt
  have hIn : ∀ s : FSubscript, s = ⟨EArray.BoneToModify, (k : Int), U.BoneToModify.Data.length⟩ →
      s.Num = U.BoneToModify.Data.length ∧ s.InBounds := by
    intro s hs
    subst hs
    refine ⟨rfl, Int.natCast_nonneg k, ?_⟩
    show (k : Int) < (U.BoneToModify.Data.length : Int)
    exact_mod_cast hklt
  by_cases hAdd : U.Mode = EControlRigModifyBoneMode.AdditiveLocal
  · rw [DetermineSpaceForPin_additive U _ InUserContext hStart k hk _ hEntry hAdd]
    refine ⟨by simp, ?_⟩
    intro s hs _
    exact hIn s (List.mem_singleton.mp hs)
  by_cases hOver : U.Mode = EControlRigModifyBoneMode.OverrideLocal
  · rw [DetermineSpaceForPin_override U _ InUserContext hStart k hk _ hEntry hOver]
    cases InUserContext with
    | none => simp [TChecked.ret]
    | some Container =>
      by_cases hBone : Container.BoneHierarchy.GetIndex (U.BoneToModify.Data[k]).Bone = INDEX_NONE
      · simp only [andThen_some, ne_eq, hBone, not_true_eq_false, if_false, TChecked.ret,
          List.append_nil]
        refine ⟨by simp, ?_⟩
        intro s hs _
        exact hIn s (List.mem_singleton.mp hs)
      · obtain ⟨Bone, _, _, hRead⟩ :=
          At_GetIndex_ParentName Container.BoneHierarchy _ hBone
        simp only [andThen_some, ne_eq, hBone, not_false_eq_true, if_true, hRead]
        refine ⟨by simp, ?_⟩
        intro s hs hArr
        rcases List.mem_append.mp hs with hs | hs
        · exact hIn s (List.mem_singleton.mp hs)
        · rw [List.mem_singleton.mp hs] at hArr
          exact absurd hArr (fun hc => EArray.noConfusion hc)
  · unfold FRigUnit_ModifyBoneTransforms.DetermineSpaceForPin
    simp [hStart, hv, hAdd, hOver, TChecked.ret]

/-! ## Lemmas on hierarchy writes -/

theorem map_set_same {α β : Type} (f : α → β) (l : List α) (i : Nat) (b c : α)
    (h : l[i]? = some b) (hf : f c = f b) : (l.set i c).map f = l.map f := by
  apply List.ext_getElem?
  intro j
  rw [List.getElem?_map, List.getElem?_map, List.getElem?_set]
  by_cases hij : i = j
  · subst hij
    have hi : i < l.length := by
      by_contra hge
      rw [List.getElem?_eq_none (by omega)] at h
      exact Option.noConfusion h
    simp [hi, h, hf]
  · simp [hij]

theorem GetIndexFrom_congr {T : Type} (InName : FName) :
    ∀ (A B : List (FRigBone T)) (Start : Nat),
      A.map (fun Bone => Bone.Name) = B.map (fun Bone => Bone.Name) →
      GetIndexFrom InName A Start = GetIndexFrom InName B Start := by
  intro A
  induction A with
  | nil =>
    intro B Start h
    cases B with
    | nil => rfl
    | cons b bs => simp at h
  | cons a as ih =>
    intro B Start h
    cases B with
    | nil => simp at h
    | cons b bs =>
      simp only [List.map_cons, List.cons.injEq] at h
      simp only [GetIndexFrom, h.1]
      rw [ih bs (Start + 1) h.2]

section Shape

variable {T : Type} {H K : FRigBoneHierarchy T}

theorem Shape_getElem? (H : FRigBoneHierarchy T) (j : Nat) :
    H.Shape[j]? = (H.Bones[j]?).map fun Bone => (Bone.Name, Bone.ParentName) := by
  simp [FRigBoneHierarchy.Shape]

theorem Shape_length (h : K.Shape = H.Shape) : K.Bones.length = H.Bones.length := by
  have := congrArg List.length h
  simpa [FRigBoneHierarchy.Shape] using this

theorem Shape_GetIndex (h : K.Shape = H.Shape) (InName : FName) :
    K.GetIndex InName = H.GetIndex InName := by
  apply GetIndexFrom_congr
  have := congrArg (List.map fun x : FName × FName => x.1) h
  simpa [FRigBoneHierarchy.Shape] using this

theorem Shape_GetParentIndex (h : K.Shape = H.Shape) (j : Nat) :
    K.GetParentIndex j = H.GetParentIndex j := by
  have hp := congrArg (fun S : List (FName × FName) => (S[j]?).map fun x => x.2) h
  simp only [Shape_getElem?, Option.map_map] at hp
  unfold FRigBoneHierarchy.GetParentIndex
  cases hK : K.Bones[j]? with
  | none =>
    cases hH : H.Bones[j]? with
    | none => rfl
    | some b => rw [hK, hH] at hp; exact Option.noConfusion hp
  | some a =>
    cases hH : H.Bones[j]? with
    | none => rw [hK, hH] at hp; exact Option.noConfusion hp
    | some b =>
      rw [hK, hH] at hp
      have hab : a.ParentName = b.ParentName := Option.some.inj hp
      simp only [hab, Shape_GetIndex h]

theorem Shape_Ancestor (h : K.Shape = H.Shape) (k j : Nat) :
    K.Ancestor k j = H.Ancestor k j := by
  induction k generalizing j with
  | zero => rfl
  | succ k ih =>
    simp only [FRigBoneHierarchy.Ancestor, Shape_GetParentIndex h]
    congr 1
    funext x
    exact ih x

theorem Shape_GetDependents (h : K.Shape = H.Shape) (i : Nat) :
    K.GetDependents i = H.GetDependents i := by
  unfold FRigBoneHierarchy.GetDependents
  rw [Shape_length h]
  congr 1
  funext c
  rw [Shape_GetParentIndex h]

theorem Shape_IsForest (h : K.Shape = H.Shape) (hF : H.IsForest) : K.IsForest := by
  intro j hj
  rw [Shape_length h] at hj ⊢
  rw [Shape_Ancestor h]
  exact hF j hj

theorem Shape_of_Skeleton (h : K.Skeleton = H.Skeleton) : K.Shape = H.Shape := by
  have := congrArg (List.map fun x : FName × FName × T => (x.1, x.2.1)) h
  simpa [FRigBoneHierarchy.Skeleton, FRigBoneHierarchy.Shape] using this

theorem Skeleton_getElem? (H : FRigBoneHierarchy T) (j : Nat) :
    H.Skeleton[j]?
      = (H.Bones[j]?).map fun Bone => (Bone.Name, Bone.ParentName, Bone.LocalTransform) := by
  simp [FRigBoneHierarchy.Skeleton]

theorem Skeleton_length (h : K.Skeleton = H.Skeleton) : K.Bones.length = H.Bones.length :=
  Shape_length (Shape_of_Skeleton h)

theorem Skeleton_GetLocalTransform (h : K.Skeleton = H.Skeleton) (j : Nat) :
    K.GetLocalTransform j = H.GetLocalTransform j := by
  have := congrArg (fun S : List (FName × FName × T) => (S[j]?).map fun x => x.2.2) h
  simp only [Skeleton_getElem?, Option.map_map] at this
  exact this

theorem Skeleton_GetParentIndex (h : K.Skeleton = H.Skeleton) (j : Nat) :
    K.GetParentIndex j = H.GetParentIndex j :=
  Shape_GetParentIndex (Shape_of_Skeleton h) j

theorem Skeleton_Ancestor (h : K.Skeleton = H.Skeleton) (k j : Nat) :
    K.Ancestor k j = H.Ancestor k j :=
  Shape_Ancestor (Shape_of_Skeleton h) k j

theorem Skeleton_IsForest (h : K.Skeleton = H.Skeleton) (hF : H.IsForest) : K.IsForest :=
  Shape_IsForest (Shape_of_Skeleton h) hF

end Shape

theorem Skeleton_set_global {T : Type} (H : FRigBoneHierarchy T) (i : Nat) (Bone : FRigBone T)
    (hBone : H.Bones[i]? = some Bone) (G : T) :
    FRigBoneHierarchy.Skeleton ⟨H.Bones.set i { Bone with GlobalTransform := G }⟩ = H.Skeleton :=
  map_set_same _ H.Bones i Bone _ hBone rfl

theorem Recalculate_Skeleton {T : Type} (Conv : FSpaceConverter T) (H : FRigBoneHierarchy T)
    (i : Nat) : (H.RecalculateGlobalTransform Conv i).Skeleton = H.Skeleton := by
  unfold FRigBoneHierarchy.RecalculateGlobalTransform
  cases hBone : H.Bones[i]? with
  | none => rfl
  | some Bone =>
    simp only []
    split <;> exact Skeleton_set_global H i Bone hBone _

theorem Recalculate_global_ne {T : Type} (Conv : FSpaceConverter T) (H : FRigBoneHierarchy T)
    (i j : Nat) (hij : j ≠ i) :
    (H.RecalculateGlobalTransform Conv i).GetGlobalTransform j = H.GetGlobalTransform j := by
  unfold FRigBoneHierarchy.RecalculateGlobalTransform
  cases hBone : H.Bones[i]? with
  | none => rfl
  | some Bone =>
    simp only []
    split <;> simp [FRigBoneHierarchy.GetGlobalTransform, List.getElem?_set_ne (Ne.symm hij)]

theorem Recalculate_global_self {T : Type} (Conv : FSpaceConverter T) (H : FRigBoneHierarchy T)
    (i p : Nat) (Bone : FRigBone T) (G : T) (hBone : H.Bones[i]? = some Bone)
    (hp : H.GetParentIndex i = some p) (hG : H.GetGlobalTransform p = some G) :
    (H.RecalculateGlobalTransform Conv i).GetGlobalTransform i
      = some (Conv.ToGlobal G Bone.LocalTransform) := by
  have hi : i < H.Bones.length := by
    by_contra hge
    rw [List.getElem?_eq_none (by omega)] at hBone
    exact Option.noConfusion hBone
  have hbind : (H.GetParentIndex i).bind H.GetGlobalTransform = some G := by
    rw [hp]; exact hG
  unfold FRigBoneHierarchy.RecalculateGlobalTransform
  simp only [hBone, hbind]
  simp [FRigBoneHierarchy.GetGlobalTransform, hi]

theorem Propagate_foldl_Skeleton {T : Type} (Conv : FSpaceConverter T) (Fuel : Nat)
    (hIH : ∀ (H : FRigBoneHierarchy T) (i : Nat),
      (FRigBoneHierarchy.PropagateTransform Conv Fuel H i).Skeleton = H.Skeleton)
    (L : List Nat) (Acc : FRigBoneHierarchy T) :
    (L.foldl (fun Acc Child => FRigBoneHierarchy.PropagateTransform Conv Fuel
      (Acc.RecalculateGlobalTransform Conv Child) Child) Acc).Skeleton = Acc.Skeleton := by
  induction L generalizing Acc with
  | nil => rfl
  | cons c cs ih =>
    rw [List.foldl_cons, ih, hIH, Recalculate_Skeleton]

theorem Propagate_Skeleton {T : Type} (Conv : FSpaceConverter T) (Fuel : Nat) :
    ∀ (H : FRigBoneHierarchy T) (i : Nat),
      (FRigBoneHierarchy.PropagateTransform Conv Fuel H i).Skeleton = H.Skeleton := by
  induction Fuel with
  | zero => intro H i; rfl
  | succ Fuel ih =>
    intro H i
    unfold FRigBoneHierarchy.PropagateTransform
    exact Propagate_foldl_Skeleton Conv Fuel ih _ H

/-! ## Parent chains -/

section Chains

variable {T : Type} (H : FRigBoneHierarchy T)

theorem Ancestor_add (a b j : Nat) :
    H.Ancestor (a + b) j = (H.Ancestor a j).bind (H.Ancestor b) := by
  induction a generalizing j with
  | zero => simp [FRigBoneHierarchy.Ancestor]
  | succ a ih =>
    rw [Nat.succ_add]
    simp only [FRigBoneHierarchy.Ancestor]
    cases H.GetParentIndex j with
    | none => rfl
    | some p => exact ih p

theorem Ancestor_one (j : Nat) : H.Ancestor 1 j = H.GetParentIndex j := by
  simp only [FRigBoneHierarchy.Ancestor]
  cases H.GetParentIndex j <;> rfl

theorem Ancestor_succ_right (k j : Nat) :
    H.Ancestor (k + 1) j = (H.Ancestor k j).bind H.GetParentIndex := by
  rw [Ancestor_add]
  congr 1
  funext x
  exact Ancestor_one H x

/-- Going `m` steps up from a child of `i` is going `m - 1` steps up from
`i`. -/
theorem Ancestor_of_child {c i : Nat} (hc : H.GetParentIndex c = some i) (m : Nat) :
    H.Ancestor (m + 1) c = H.Ancestor m i := by
  simp only [FRigBoneHierarchy.Ancestor, hc, Option.some_bind]

theorem GetParentIndex_lt {j p : Nat} (h : H.GetParentIndex j = some p) :
    j < H.Bones.length ∧ p < H.Bones.length := by
  unfold FRigBoneHierarchy.GetParentIndex at h
  cases hBone : H.Bones[j]? with
  | none => rw [hBone] at h; exact Option.noConfusion h
  | some Bone =>
    have hj : j < H.Bones.length := by
      by_contra hge
      rw [List.getElem?_eq_none (by omega)] at hBone
      exact Option.noConfusion hBone
    rw [hBone] at h
    simp only [] at h
    split at h
    · exact Option.noConfusion h
    · rename_i hne
      obtain ⟨k, B, hk, hB, _⟩ := GetIndex_resolved H Bone.ParentName hne
      have hkp : k = p := by
        rw [hk] at h
        simpa using h
      have hklt : k < H.Bones.length := by
        by_contra hge
        rw [List.getElem?_eq_none (by omega)] at hB
        exact Option.noConfusion hB
      exact ⟨hj, hkp ▸ hklt⟩

theorem Ancestor_eq_none_of_le {k n j : Nat} (h : H.Ancestor n j = none) (hle : n ≤ k) :
    H.Ancestor k j = none := by
  obtain ⟨r, rfl⟩ := Nat.exists_eq_add_of_le hle
  rw [Ancestor_add, h]
  rfl

/-- In a forest, a chain of `k ≥ 1` steps is shorter than the hierarchy. -/
theorem Ancestor_lt_of_forest (hF : H.IsForest) {k j i : Nat} (hk : 1 ≤ k)
    (h : H.Ancestor k j = some i) : k < H.Bones.length := by
  by_contra hge
  have hj : j < H.Bones.length := by
    obtain ⟨k', rfl⟩ := Nat.exists_eq_add_of_le hk
    rw [Nat.add_comm, FRigBoneHierarchy.Ancestor] at h
    cases hp : H.GetParentIndex j with
    | none => rw [hp] at h; exact Option.noConfusion h
    | some p => exact (GetParentIndex_lt H hp).1
  rw [Ancestor_eq_none_of_le H (hF j hj) (by omega)] at h
  exact Option.noConfusion h

/-- In a forest no node is its own proper ancestor. -/
theorem no_cycle (hF : H.IsForest) {k j : Nat} (hk : 1 ≤ k) : H.Ancestor k j ≠ some j := by
  intro h
  have hmul : ∀ m : Nat, H.Ancestor (m * k) j = some j := by
    intro m
    induction m with
    | zero => simp [FRigBoneHierarchy.Ancestor]
    | succ m ih => rw [Nat.succ_mul, Ancestor_add, ih, Option.some_bind, h]
  have hlt := Ancestor_lt_of_forest H hF (k := (H.Bones.length + 1) * k)
    (Nat.le_trans hk (Nat.le_mul_of_pos_left k (Nat.succ_pos _))) (hmul _)
  have : H.Bones.length + 1 ≤ (H.Bones.length + 1) * k := Nat.le_mul_of_pos_right _ hk
  omega

/-- The parent is never a descendant of its child. -/
theorem parent_not_below (hF : H.IsForest) {b i : Nat} (hb : H.GetParentIndex b = some i)
    (m : Nat) : H.Ancestor m i ≠ some b := by
  intro h
  have : H.Ancestor (m + 1) i = some i := by
    rw [Ancestor_succ_right, h, Option.some_bind, hb]
  exact no_cycle H hF (Nat.succ_pos m) this

/-- Subtrees of two different children of one node are disjoint. -/
theorem sibling_not_below (hF : H.IsForest) {b c i : Nat} (hb : H.GetParentIndex b = some i)
    (hc : H.GetParentIndex c = some i) (hbc : b ≠ c) {a x : Nat}
    (hx : H.Ancestor a x = some c) (m : Nat) : H.Ancestor m x ≠ some b := by
  intro hm
  rcases Nat.lt_trichotomy m a with hlt | heq | hgt
  · obtain ⟨r, rfl⟩ := Nat.exists_eq_add_of_lt hlt
    rw [Nat.add_assoc, Ancestor_add, hm, Option.some_bind, Ancestor_of_child H hb] at hx
    exact parent_not_below H hF hc r hx
  · subst heq
    rw [hx] at hm
    exact hbc (Option.some.inj hm).symm
  · obtain ⟨r, rfl⟩ := Nat.exists_eq_add_of_lt hgt
    rw [Nat.add_assoc, Ancestor_add, hx, Option.some_bind, Ancestor_of_child H hc] at hm
    exact parent_not_below H hF hb r hm

theorem mem_GetDependents {c i : Nat} :
    c ∈ H.GetDependents i ↔ H.GetParentIndex c = some i := by
  unfold FRigBoneHierarchy.GetDependents
  rw [List.mem_filter, List.mem_range]
  constructor
  · intro h; simpa using h.2
  · intro h; exact ⟨(GetParentIndex_lt H h).1, by simpa using h⟩

theorem GetDependents_nodup (i : Nat) : (H.GetDependents i).Nodup :=
  List.Nodup.filter _ (List.nodup_range _)

end Chains

/-! ## The re-derivation pass -/

theorem getElem?_isSome_of_lt {α : Type} (l : List α) {i : Nat} (h : i < l.length) :
    ∃ a, l[i]? = some a :=
  ⟨l[i], List.getElem?_eq_getElem h⟩

theorem foldl_global_outside {T : Type} (Conv : FSpaceConverter T) (Fuel : Nat)
    (hIH : ∀ (H : FRigBoneHierarchy T) (i j : Nat),
      (∀ m, 1 ≤ m → H.Ancestor m j ≠ some i) →
      (FRigBoneHierarchy.PropagateTransform Conv Fuel H i).GetGlobalTransform j
        = H.GetGlobalTransform j)
    (H : FRigBoneHierarchy T) (j : Nat) :
    ∀ (L : List Nat) (Acc : FRigBoneHierarchy T), Acc.Skeleton = H.Skeleton →
      (∀ b ∈ L, ∀ m, H.Ancestor m j ≠ some b) →
      (L.foldl (fun Acc Child => FRigBoneHierarchy.PropagateTransform Conv Fuel
        (Acc.RecalculateGlobalTransform Conv Child) Child) Acc).GetGlobalTransform j
        = Acc.GetGlobalTransform j := by
  intro L
  induction L with
  | nil => intro Acc _ _; rfl
  | cons b bs ih =>
    intro Acc hAcc hOut
    have hR : (Acc.RecalculateGlobalTransform Conv b).Skeleton = H.Skeleton := by
      rw [Recalculate_Skeleton, hAcc]
    have hP : (FRigBoneHierarchy.PropagateTransform Conv Fuel
        (Acc.RecalculateGlobalTransform Conv b) b).Skeleton = H.Skeleton := by
      rw [Propagate_Skeleton, hR]
    rw [List.foldl_cons, ih _ hP (fun c hc => hOut c (List.mem_cons_of_mem _ hc))]
    have hb := hOut b (List.mem_cons_self _ _)
    rw [hIH _ b j (fun m _ => by rw [Skeleton_Ancestor hR]; exact hb m)]
    apply Recalculate_global_ne
    intro hjb
    exact hb 0 (by rw [hjb]; rfl)

/-- The pass below node `i` leaves the global transform of every node that is
not a proper descendant of `i` as it was. -/
theorem Propagate_global_outside {T : Type} (Conv : FSpaceConverter T) (Fuel : Nat) :
    ∀ (H : FRigBoneHierarchy T) (i j : Nat),
      (∀ m, 1 ≤ m → H.Ancestor m j ≠ some i) →
      (FRigBoneHierarchy.PropagateTransform Conv Fuel H i).GetGlobalTransform j
        = H.GetGlobalTransform j := by
  induction Fuel with
  | zero => intro H i j _; rfl
  | succ Fuel ih =>
    intro H i j hOut
    unfold FRigBoneHierarchy.PropagateTransform
    apply foldl_global_outside Conv Fuel ih H j _ H rfl
    intro b hb m hm
    have hpar := (mem_GetDependents H).mp hb
    apply hOut (m + 1) (Nat.succ_pos m)
    rw [Ancestor_succ_right, hm, Option.some_bind, hpar]

/-- After the pass below node `i` of a forest, every node `j` whose `k`-th
ancestor is `i` (`1 ≤ k ≤ Fuel`) has as its global transform its parent's
global transform composed with its own local transform. -/
theorem Propagate_global_below {T : Type} (Conv : FSpaceConverter T) (Fuel : Nat) :
    ∀ (H : FRigBoneHierarchy T), H.IsForest → ∀ (i j k : Nat), 1 ≤ k → k ≤ Fuel →
      H.Ancestor k j = some i →
      ∃ (p : Nat) (G L : T), H.GetParentIndex j = some p ∧
        (FRigBoneHierarchy.PropagateTransform Conv Fuel H i).GetGlobalTransform p = some G ∧
        H.GetLocalTransform j = some L ∧
        (FRigBoneHierarchy.PropagateTransform Conv Fuel H i).GetGlobalTransform j
          = some (Conv.ToGlobal G L) := by
  induction Fuel with
  | zero => intro H _ i j k h1 h0 _; omega
  | succ Fuel ih =>
    intro H hF i j k h1 hk hAnc
    obtain ⟨k', rfl⟩ := Nat.exists_eq_add_of_le' h1
    rw [Ancestor_succ_right] at hAnc
    obtain ⟨c, hjc, hci⟩ := Option.bind_eq_some.mp hAnc
    obtain ⟨A, B, hL⟩ := List.append_of_mem ((mem_GetDependents H).mpr hci)
    have hNodup := GetDependents_nodup H i
    rw [hL] at hNodup
    have hBc : ∀ b ∈ B, b ≠ c := by
      intro b hb hbc
      have := (List.nodup_cons.mp (List.nodup_append.mp hNodup).2.1).1
      exact this (hbc ▸ hb)
    have hBi : ∀ b ∈ B, H.GetParentIndex b = some i := by
      intro b hb
      apply (mem_GetDependents H).mp
      rw [hL]
      exact List.mem_append_right _ (List.mem_cons_of_mem _ hb)
    unfold FRigBoneHierarchy.PropagateTransform
    rw [hL, List.foldl_append, List.foldl_cons]
    -- the hierarchy after the children before `c`, then after re-deriving `c`
    generalize hHA : (A.foldl (fun Acc Child => FRigBoneHierarchy.PropagateTransform Conv Fuel
      (Acc.RecalculateGlobalTransform Conv Child) Child) H) = HA
    have hSA : HA.Skeleton = H.Skeleton := by
      rw [← hHA]
      exact Propagate_foldl_Skeleton Conv Fuel (Propagate_Skeleton Conv Fuel) A H
    have hSR : (HA.RecalculateGlobalTransform Conv c).Skeleton = H.Skeleton := by
      rw [Recalculate_Skeleton, hSA]
    have hSC : (FRigBoneHierarchy.PropagateTransform Conv Fuel
        (HA.RecalculateGlobalTransform Conv c) c).Skeleton = H.Skeleton := by
      rw [Propagate_Skeleton, hSR]
    -- nodes outside the later siblings' subtrees keep what the pass below `c` gave them
    have hLater : ∀ x, (∀ b ∈ B, ∀ m, H.Ancestor m x ≠ some b) →
        (B.foldl (fun Acc Child => FRigBoneHierarchy.PropagateTransform Conv Fuel
          (Acc.RecalculateGlobalTransform Conv Child) Child)
          (FRigBoneHierarchy.PropagateTransform Conv Fuel
            (HA.RecalculateGlobalTransform Conv c) c)).GetGlobalTransform x
        = (FRigBoneHierarchy.PropagateTransform Conv Fuel
            (HA.RecalculateGlobalTransform Conv c) c).GetGlobalTransform x :=
      fun x hx => foldl_global_outside Conv Fuel (Propagate_global_outside Conv Fuel) H x B _
        hSC hx
    have hBelowC : ∀ a x, H.Ancestor a x = some c → ∀ b ∈ B, ∀ m, H.Ancestor m x ≠ some b :=
      fun a x hx b hb m => sibling_not_below H hF (hBi b hb) hci (hBc b hb) hx m
    by_cases hk0 : k' = 0
    · -- `j` is the child `c` itself
      subst hk0
      have hjc' : j = c := Option.some.inj hjc
      subst hjc'
      have hilt := (GetParentIndex_lt H hci).2
      have hjlt := (GetParentIndex_lt H hci).1
      obtain ⟨Pi, hPi⟩ := getElem?_isSome_of_lt HA.Bones (by rw [Skeleton_length hSA]; exact hilt)
      obtain ⟨Bj, hBj⟩ := getElem?_isSome_of_lt HA.Bones (by rw [Skeleton_length hSA]; exact hjlt)
      have hGi : HA.GetGlobalTransform i = some Pi.GlobalTransform := by
        simp [FRigBoneHierarchy.GetGlobalTransform, hPi]
      have hLj : H.GetLocalTransform j = some Bj.LocalTransform := by
        rw [← Skeleton_GetLocalTransform hSA]
        simp [FRigBoneHierarchy.GetLocalTransform, hBj]
      refine ⟨i, Pi.GlobalTransform, Bj.LocalTransform, hci, ?_, hLj, ?_⟩
      · rw [hLater i (fun b hb m => parent_not_below H hF (hBi b hb) m),
          Propagate_global_outside Conv Fuel _ j i (fun m _ => by
            rw [Skeleton_Ancestor hSR]; exact parent_not_below H hF hci m),
          Recalculate_global_ne Conv HA j i (fun hij => parent_not_below H hF hci 0 (by
            rw [hij]; rfl)), hGi]
      · rw [hLater j (hBelowC 0 j rfl),
          Propagate_global_outside Conv Fuel _ j j (fun m hm => by
            rw [Skeleton_Ancestor hSR]; exact no_cycle H hF hm)]
        exact Recalculate_global_self Conv HA j i Bj Pi.GlobalTransform hBj
          (by rw [Skeleton_GetParentIndex hSA]; exact hci) hGi
    · -- `j` lies properly below the child `c`
      have hk1 : 1 ≤ k' := Nat.one_le_iff_ne_zero.mpr hk0
      obtain ⟨p, G, L, hp, hG, hLoc, hGj⟩ := ih (HA.RecalculateGlobalTransform Conv c)
        (Skeleton_IsForest hSR hF) c j k' hk1 (by omega)
        (by rw [Skeleton_Ancestor hSR]; exact hjc)
      rw [Skeleton_GetParentIndex hSR] at hp
      rw [Skeleton_GetLocalTransform hSR] at hLoc
      obtain ⟨r, rfl⟩ := Nat.exists_eq_add_of_le' hk1
      have hpc : H.Ancestor r p = some c := by
        rw [← Ancestor_of_child H hp]; exact hjc
      refine ⟨p, G, L, hp, ?_, hLoc, ?_⟩
      · rw [hLater p (hBelowC r p hpc)]; exact hG
      · rw [hLater j (hBelowC (r + 1) j hjc)]; exact hGj

/-! ## Writing a local transform -/

section Writes

variable {T : Type} (Conv : FSpaceConverter T) (H : FRigBoneHierarchy T)

theorem Shape_set (i : Nat) (Bone New : FRigBone T) (hBone : H.Bones[i]? = some Bone)
    (hName : New.Name = Bone.Name) (hParent : New.ParentName = Bone.ParentName) :
    FRigBoneHierarchy.Shape ⟨H.Bones.set i New⟩ = H.Shape :=
  map_set_same _ H.Bones i Bone New hBone (by rw [hName, hParent])

theorem GetLocalTransform_set (i j : Nat) (New : FRigBone T) :
    FRigBoneHierarchy.GetLocalTransform ⟨H.Bones.set i New⟩ j
      = if i = j then (if i < H.Bones.length then some New.LocalTransform else none)
        else H.GetLocalTransform j := by
  unfold FRigBoneHierarchy.GetLocalTransform
  simp only [List.getElem?_set]
  split
  · split <;> rfl
  · rfl

theorem SetLocalTransform_Shape (i : Nat) (X : T) (bPropagate : Bool) :
    (H.SetLocalTransform Conv i X bPropagate).Shape = H.Shape := by
  unfold FRigBoneHierarchy.SetLocalTransform
  cases hBone : H.Bones[i]? with
  | none => rfl
  | some Bone =>
    have hW := Shape_set H i Bone { Bone with LocalTransform := X } hBone rfl rfl
    have hD := Shape_of_Skeleton (Recalculate_Skeleton Conv
      (⟨H.Bones.set i { Bone with LocalTransform := X }⟩ : FRigBoneHierarchy T) i)
    simp only []
    split
    · rw [Shape_of_Skeleton (Propagate_Skeleton Conv _ _ i), hD, hW]
    · rw [hD, hW]

/-- A write of a local transform changes the local transform of the written
node only. -/
theorem SetLocalTransform_local (i j : Nat) (X : T) (bPropagate : Bool) :
    (H.SetLocalTransform Conv i X bPropagate).GetLocalTransform j
      = if i = j ∧ i < H.Bones.length then some X else H.GetLocalTransform j := by
  unfold FRigBoneHierarchy.SetLocalTransform
  cases hBone : H.Bones[i]? with
  | none =>
    have hi : ¬ i < H.Bones.length := by
      intro hlt
      rw [List.getElem?_eq_getElem hlt] at hBone
      exact Option.noConfusion hBone
    simp [hi]
  | some Bone =>
    have hi : i < H.Bones.length := by
      by_contra hge
      rw [List.getElem?_eq_none (by omega)] at hBone
      exact Option.noConfusion hBone
    have hD := Skeleton_GetLocalTransform (Recalculate_Skeleton Conv
      (⟨H.Bones.set i { Bone with LocalTransform := X }⟩ : FRigBoneHierarchy T) i) j
    have hW := GetLocalTransform_set H i j { Bone with LocalTransform := X }
    simp only []
    split
    · rw [Skeleton_GetLocalTransform (Propagate_Skeleton Conv _ _ i), hD, hW]
      simp [hi]
    · rw [hD, hW]
      simp [hi]

end Writes

/-- C4: in every hierarchy that is a forest, writing the local transform of
bone `i` with `bPropagateToChildren = true` leaves the local transform of
every descendant `d` of `i` (a node whose `k`-th ancestor, `k ≥ 1`, is `i`)
identical to what it was before the write, keeps its parent, and makes its
global transform equal to its parent's new global transform composed with its
own local transform. -/
theorem SetLocalTransform_propagates {T : Type} (Conv : FSpaceConverter T)
    (H : FRigBoneHierarchy T) (hForest : H.IsForest) (i : Nat) (X : T) (d k : Nat)
    (hk : 1 ≤ k) (hd : H.Ancestor k d = some i) :
    (H.SetLocalTransform Conv i X true).GetLocalTransform d = H.GetLocalTransform d ∧
    ∃ (p : Nat) (G L : T),
      H.GetParentIndex d = some p ∧
      (H.SetLocalTransform Conv i X true).GetParentIndex d = some p ∧
      (H.SetLocalTransform Conv i X true).GetGlobalTransform p = some G ∧
      (H.SetLocalTransform Conv i X true).GetLocalTransform d = some L ∧
      (H.SetLocalTransform Conv i X true).GetGlobalTransform d = some (Conv.ToGlobal G L) := by
  have hid : i ≠ d := by
    intro hEq
    rw [← hEq] at hd
    exact no_cycle H hForest hk hd
  have hLocal : (H.SetLocalTransform Conv i X true).GetLocalTransform d
      = H.GetLocalTransform d := by
    rw [SetLocalTransform_local]
    simp [hid]
  have hShape := SetLocalTransform_Shape Conv H i X true
  refine ⟨hLocal, ?_⟩
  -- the bone written exists: it is an ancestor
  have hilt : i < H.Bones.length := by
    obtain ⟨k', rfl⟩ := Nat.exists_eq_add_of_le' hk
    rw [Ancestor_succ_right] at hd
    obtain ⟨c, _, hci⟩ := Option.bind_eq_some.mp hd
    exact (GetParentIndex_lt H hci).2
  obtain ⟨Bone, hBone⟩ := getElem?_isSome_of_lt H.Bones hilt
  have hW := Shape_set H i Bone { Bone with LocalTransform := X } hBone rfl rfl
  have hD := Shape_of_Skeleton (Recalculate_Skeleton Conv
    (⟨H.Bones.set i { Bone with LocalTransform := X }⟩ : FRigBoneHierarchy T) i)
  have hDH := hD.trans hW
  have hklt := Ancestor_lt_of_forest H hForest hk hd
  have hEq : H.SetLocalTransform Conv i X true
      = FRigBoneHierarchy.PropagateTransform Conv
          (FRigBoneHierarchy.RecalculateGlobalTransform Conv
            ⟨H.Bones.set i { Bone with LocalTransform := X }⟩ i).Bones.length
          (FRigBoneHierarchy.RecalculateGlobalTransform Conv
            ⟨H.Bones.set i { Bone with LocalTransform := X }⟩ i) i := by
    unfold FRigBoneHierarchy.SetLocalTransform
    simp only [hBone, if_true]
  obtain ⟨p, G, L, hp, hG, hL, hGd⟩ := Propagate_global_below Conv
    (FRigBoneHierarchy.RecalculateGlobalTransform Conv
      ⟨H.Bones.set i { Bone with LocalTransform := X }⟩ i).Bones.length
    (FRigBoneHierarchy.RecalculateGlobalTransform Conv
      ⟨H.Bones.set i { Bone with LocalTransform := X }⟩ i)
    (Shape_IsForest hDH hForest) i d k hk
    (by rw [Shape_length hDH]; omega)
    (by rw [Shape_Ancestor hDH]; exact hd)
  rw [← hEq] at hG hGd
  rw [Shape_GetParentIndex hDH] at hp
  refine ⟨p, G, L, hp, by rw [Shape_GetParentIndex hShape]; exact hp, hG, ?_, hGd⟩
  rw [hEq, Skeleton_GetLocalTransform (Propagate_Skeleton Conv _ _ i)]
  exact hL

/-! ## Getters on an unresolved control -/

/-- C5: for each of the six getter units and every control hierarchy in which
the name `Name` does not resolve, executing the freshly constructed unit
(with its `Control` set to `Name`) completes without a failed range check and
without subscripting the hierarchy, hands back the hierarchy unchanged, and
its output is the type's identity value: `false`, `0`, the zero 2D vector,
the zero vector, the zero rotator, the identity transform. -/
theorem GetControl_unresolved {F T : Type} [Zero F] [FTransformIdentity T]
    (H : FRigControlHierarchy F T) (Name : FName) (hName : H.GetIndex Name = INDEX_NONE) :
    (FRigUnit_GetControlBool.Execute { FRigUnit_GetControlBool.New with Control := Name } H
        = ⟨some ({ FRigUnit_GetControlBool.New with Control := Name }, H), []⟩ ∧
      ({ FRigUnit_GetControlBool.New with Control := Name } :
        FRigUnit_GetControlBool).BoolValue = false) ∧
    (FRigUnit_GetControlFloat.Execute
          { (FRigUnit_GetControlFloat.New : FRigUnit_GetControlFloat F) with Control := Name } H
        = ⟨some ({ (FRigUnit_GetControlFloat.New : FRigUnit_GetControlFloat F) with
            Control := Name }, H), []⟩ ∧
      ({ (FRigUnit_GetControlFloat.New : FRigUnit_GetControlFloat F) with
          Control := Name } : FRigUnit_GetControlFloat F).FloatValue = 0) ∧
    (FRigUnit_GetControlVector2D.Execute
          { (FRigUnit_GetControlVector2D.New : FRigUnit_GetControlVector2D F) with
            Control := Name } H
        = ⟨some ({ (FRigUnit_GetControlVector2D.New : FRigUnit_GetControlVector2D F) with
            Control := Name }, H), []⟩ ∧
      ({ (FRigUnit_GetControlVector2D.New : FRigUnit_GetControlVector2D F) with
          Control := Name } : FRigUnit_GetControlVector2D F).Vector = ⟨0, 0⟩) ∧
    (FRigUnit_GetControlVector.Execute
          { (FRigUnit_GetControlVector.New : FRigUnit_GetControlVector F) with Control := Name } H
        = ⟨some ({ (FRigUnit_GetControlVector.New : FRigUnit_GetControlVector F) with
            Control := Name }, H), []⟩ ∧
      ({ (FRigUnit_GetControlVector.New : FRigUnit_GetControlVector F) with
          Control := Name } : FRigUnit_GetControlVector F).Vector = ⟨0, 0, 0⟩) ∧
    (FRigUnit_GetControlRotator.Execute
          { (FRigUnit_GetControlRotator.New : FRigUnit_GetControlRotator F) with
            Control := Name } H
        = ⟨some ({ (FRigUnit_GetControlRotator.New : FRigUnit_GetControlRotator F) with
            Control := Name }, H), []⟩ ∧
      ({ (FRigUnit_GetControlRotator.New : FRigUnit_GetControlRotator F) with
          Control := Name } : FRigUnit_GetControlRotator F).Rotator = ⟨0, 0, 0⟩) ∧
    (FRigUnit_GetControlTransform.Execute
          { (FRigUnit_GetControlTransform.New : FRigUnit_GetControlTransform T) with
            Control := Name } H
        = ⟨some ({ (FRigUnit_GetControlTransform.New : FRigUnit_GetControlTransform T) with
            Control := Name }, H), []⟩ ∧
      ({ (FRigUnit_GetControlTransform.New : FRigUnit_GetControlTransform T) with
          Control := Name } : FRigUnit_GetControlTransform T).Transform
        = FTransformIdentity.Identity) := by
  refine ⟨⟨?_, rfl⟩, ⟨?_, rfl⟩, ⟨?_, rfl⟩, ⟨?_, rfl⟩, ⟨?_, rfl⟩, ⟨?_, rfl⟩⟩
  · unfold FRigUnit_GetControlBool.Execute
    rw [if_pos hName]; rfl
  · unfold FRigUnit_GetControlFloat.Execute
    rw [if_pos hName]; rfl
  · unfold FRigUnit_GetControlVector2D.Execute
    rw [if_pos hName]; rfl
  · unfold FRigUnit_GetControlVector.Execute
    rw [if_pos hName]; rfl
  · unfold FRigUnit_GetControlRotator.Execute
    rw [if_pos hName]; rfl
  · unfold FRigUnit_GetControlTransform.Execute
    rw [if_pos hName]; rfl

/-- Witness of C5: the slider-only control hierarchy has no control called
`StrayName`. -/
theorem GetControl_unresolved_witness :
    SliderControls.GetIndex StrayName = INDEX_NONE ∧
    (FRigUnit_GetControlFloat.Execute
          { (FRigUnit_GetControlFloat.New : FRigUnit_GetControlFloat Int) with
            Control := StrayName } SliderControls
        = ⟨some ({ (FRigUnit_GetControlFloat.New : FRigUnit_GetControlFloat Int) with
            Control := StrayName }, SliderControls), []⟩ ∧
      ({ (FRigUnit_GetControlFloat.New : FRigUnit_GetControlFloat Int) with
          Control := StrayName } : FRigUnit_GetControlFloat Int).FloatValue = 0) :=
  ⟨by decide, (GetControl_unresolved SliderControls StrayName (by decide)).2.1⟩

/-! ## Default construction -/

/-- C6: a default-constructed `FRigUnit_ModifyBoneTransforms` has
`Weight = 1`, `WeightMinimum = 0`, `WeightMaximum = 1`, so that the default
weight lies inside the default range `[0,1]`, `Mode = AdditiveLocal`, and a
`BoneToModify` list of exactly one entry, the default-constructed one, whose
`Bone` is `NAME_None`. -/
theorem ModifyBoneTransforms_New_defaults {F T : Type} [LinearOrderedField F]
    [FTransformIdentity T] :
    (FRigUnit_ModifyBoneTransforms.New : FRigUnit_ModifyBoneTransforms F T).Weight = 1 ∧
    (FRigUnit_ModifyBoneTransforms.New : FRigUnit_ModifyBoneTransforms F T).WeightMinimum = 0 ∧
    (FRigUnit_ModifyBoneTransforms.New : FRigUnit_ModifyBoneTransforms F T).WeightMaximum = 1 ∧
    (FRigUnit_ModifyBoneTransforms.New : FRigUnit_ModifyBoneTransforms F T).WeightMinimum
      ≤ (FRigUnit_ModifyBoneTransforms.New : FRigUnit_ModifyBoneTransforms F T).Weight ∧
    (FRigUnit_ModifyBoneTransforms.New : FRigUnit_ModifyBoneTransforms F T).Weight
      ≤ (FRigUnit_ModifyBoneTransforms.New : FRigUnit_ModifyBoneTransforms F T).WeightMaximum ∧
    (FRigUnit_ModifyBoneTransforms.New : FRigUnit_ModifyBoneTransforms F T).Mode
      = EControlRigModifyBoneMode.AdditiveLocal ∧
    (FRigUnit_ModifyBoneTransforms.New : FRigUnit_ModifyBoneTransforms F T).BoneToModify.Data.length
      = 1 ∧
    (FRigUnit_ModifyBoneTransforms.New : FRigUnit_ModifyBoneTransforms F T).BoneToModify.Data
      = [FRigUnit_ModifyBoneTransforms_PerBone.New] ∧
    (FRigUnit_ModifyBoneTransforms_PerBone.New :
      FRigUnit_ModifyBoneTransforms_PerBone T).Bone = NAME_None :=
  ⟨rfl, rfl, rfl, zero_le_one, le_refl _, rfl, rfl, rfl, rfl⟩

/-! ## Concrete runs -/

/-- C2, the code at the claim's own examples: the bracket text `abc` and the
text `Foo` hold no digits, `Atoi` reads them as `0`, and the unit (mode
`AdditiveLocal`, first entry the root bone) advises the bone of entry `0`
instead of `NAME_None`. -/
theorem ModifyBoneTransforms_DetermineSpaceForPin_malformed :
    ParsePinIndex (TEXT "BoneToModify[abc].Transform") = 0 ∧
    ParsePinIndex (TEXT "BoneToModify.Foo.Bar") = 0 ∧
    ((TwoBoneUnit EControlRigModifyBoneMode.AdditiveLocal).DetermineSpaceForPin
      (TEXT "BoneToModify[abc].Transform") none).Value = some RootName ∧
    ((TwoBoneUnit EControlRigModifyBoneMode.AdditiveLocal).DetermineSpaceForPin
      (TEXT "BoneToModify.Foo.Bar") none).Value = some RootName ∧
    RootName ≠ NAME_None := by
  refine ⟨by decide, by decide, by decide, by decide, by decide⟩

/-- Witness of C1: the child bone of the example rig resolves, and the advice
for its `Translation` pin is the root bone, its parent. -/
theorem SetBoneTranslation_DetermineSpaceForPin_parent_witness :
    ChildTranslationUnit.Space = EBoneGetterSetterMode.LocalSpace ∧
    StartsWith (TEXT "Translation.X") (TEXT "Translation") = true ∧
    RootChildContainer.BoneHierarchy.GetIndex ChildTranslationUnit.Bone ≠ INDEX_NONE ∧
    (ChildTranslationUnit.DetermineSpaceForPin (TEXT "Translation.X")
      (some RootChildContainer)).Value = some RootName ∧
    (∃ Bone : FRigBone FTranslation,
      RootChildContainer.BoneHierarchy.Bones[
        (RootChildContainer.BoneHierarchy.GetIndex ChildTranslationUnit.Bone).toNat]? = some Bone ∧
      Bone.Name = ChildTranslationUnit.Bone ∧
      (ChildTranslationUnit.DetermineSpaceForPin (TEXT "Translation.X")
        (some RootChildContainer)).Value = some Bone.ParentName) :=
  ⟨by decide, by decide, by decide, by decide,
    SetBoneTranslation_DetermineSpaceForPin_parent ChildTranslationUnit (TEXT "Translation.X")
      RootChildContainer (by decide) (by decide) (by decide)⟩

/-- Witness of C9: a bone name the example rig lacks, and a pin path that
fails the prefix test. -/
theorem SetBoneTranslation_DetermineSpaceForPin_none_witness :
    (RootChildContainer.BoneHierarchy.GetIndex StrayTranslationUnit.Bone = INDEX_NONE ∧
      (StrayTranslationUnit.DetermineSpaceForPin (TEXT "Translation.X")
        (some RootChildContainer)).Value = some NAME_None ∧
      (StrayTranslationUnit.DetermineSpaceForPin (TEXT "Translation.X")
        (some RootChildContainer)).Subscripts = []) ∧
    (StartsWith (TEXT "Rotation.X") (TEXT "Translation") = false ∧
      (ChildTranslationUnit.DetermineSpaceForPin (TEXT "Rotation.X")
        (some RootChildContainer)).Value = some NAME_None ∧
      (ChildTranslationUnit.DetermineSpaceForPin (TEXT "Rotation.X")
        (some RootChildContainer)).Subscripts = []) :=
  ⟨⟨by decide,
    (SetBoneTranslation_DetermineSpaceForPin_none StrayTranslationUnit (TEXT "Translation.X")
      (some RootChildContainer)).2
      (Or.inr (Or.inr (Or.inr ⟨RootChildContainer, rfl, by decide⟩)))⟩,
   ⟨by decide,
    (SetBoneTranslation_DetermineSpaceForPin_none ChildTranslationUnit (TEXT "Rotation.X")
      (some RootChildContainer)).2 (Or.inr (Or.inl (by decide)))⟩⟩

/-- Witness of C7: entry `1` of the two-bone unit through the pin path
`BoneToModify[1].Transform`. -/
theorem ModifyBoneTransforms_DetermineSpaceForPin_additiveLocal_witness :
    TEXT "BoneToModify[" ++ Decimal 1 ++ TEXT "]." ++ TEXT "Transform"
      = TEXT "BoneToModify[1].Transform" ∧
    (TwoBoneUnit EControlRigModifyBoneMode.AdditiveLocal).BoneToModify.Data[1]?
      = some ⟨ChildName, ⟨0, 0, 2⟩⟩ ∧
    ParsePinIndex (TEXT "BoneToModify[" ++ Decimal 1 ++ TEXT "]." ++ TEXT "Transform")
      = ((1 : Nat) : Int) ∧
    ((TwoBoneUnit EControlRigModifyBoneMode.AdditiveLocal).DetermineSpaceForPin
      (TEXT "BoneToModify[" ++ Decimal 1 ++ TEXT "]." ++ TEXT "Transform") none).Value
      = some ChildName :=
  ⟨by decide, rfl,
    ModifyBoneTransforms_DetermineSpaceForPin_additiveLocal
      (TwoBoneUnit EControlRigModifyBoneMode.AdditiveLocal) rfl 1
      ⟨ChildName, ⟨0, 0, 2⟩⟩ rfl (TEXT "Transform") none⟩

/-- Witness of C8: entry `1` of the two-bone unit, whose bone is the child of
the example rig. -/
theorem ModifyBoneTransforms_DetermineSpaceForPin_overrideLocal_witness :
    (TwoBoneUnit EControlRigModifyBoneMode.OverrideLocal).BoneToModify.Data[1]?
      = some ⟨ChildName, ⟨0, 0, 2⟩⟩ ∧
    RootChildContainer.BoneHierarchy.GetIndex ChildName ≠ INDEX_NONE ∧
    ((TwoBoneUnit EControlRigModifyBoneMode.OverrideLocal).DetermineSpaceForPin
      (TEXT "BoneToModify[1].Transform") (some RootChildContainer)).Value = some RootName ∧
    (∃ Bone : FRigBone FTranslation,
      RootChildContainer.BoneHierarchy.Bones[
        (RootChildContainer.BoneHierarchy.GetIndex ChildName).toNat]? = some Bone ∧
      Bone.Name = ChildName ∧
      ((TwoBoneUnit EControlRigModifyBoneMode.OverrideLocal).DetermineSpaceForPin
        (TEXT "BoneToModify[" ++ Decimal 1 ++ TEXT "]" ++ TEXT ".Transform")
        (some RootChildContainer)).Value = some Bone.ParentName) ∧
    ((TwoBoneUnit EControlRigModifyBoneMode.OverrideLocal).DetermineSpaceForPin
      (TEXT "BoneToModify[" ++ Decimal 1 ++ TEXT "]" ++ TEXT ".Transform") none).Value
      = some NAME_None :=
  ⟨rfl, by decide, by decide,
    (ModifyBoneTransforms_DetermineSpaceForPin_overrideLocal
      (TwoBoneUnit EControlRigModifyBoneMode.OverrideLocal) rfl 1
      ⟨ChildName, ⟨0, 0, 2⟩⟩ rfl (TEXT ".Transform")).1 RootChildContainer (by decide),
    (ModifyBoneTransforms_DetermineSpaceForPin_overrideLocal
      (TwoBoneUnit EControlRigModifyBoneMode.OverrideLocal) rfl 1
      ⟨ChildName, ⟨0, 0, 2⟩⟩ rfl (TEXT ".Transform")).2.1⟩

/-- Witness of C10: the index `7` is past the two entries of the unit, and
the pin path `Weight` fails the prefix test. -/
theorem ModifyBoneTransforms_DetermineSpaceForPin_none_witness :
    (ParsePinIndex (TEXT "BoneToModify[7].Transform") = 7 ∧
      ((TwoBoneUnit EControlRigModifyBoneMode.AdditiveLocal).DetermineSpaceForPin
        (TEXT "BoneToModify[7].Transform") (some RootChildContainer)).Value = some NAME_None) ∧
    (StartsWith (TEXT "Weight") (TEXT "BoneToModify") = false ∧
      ((TwoBoneUnit EControlRigModifyBoneMode.AdditiveLocal).DetermineSpaceForPin
        (TEXT "Weight") (some RootChildContainer)).Value = some NAME_None) :=
  ⟨⟨by decide,
    (ModifyBoneTransforms_DetermineSpaceForPin_none
      (TwoBoneUnit EControlRigModifyBoneMode.AdditiveLocal) (TEXT "BoneToModify[7].Transform")
      (some RootChildContainer)).1 (Or.inr (Or.inr (Or.inr (Or.inr (Or.inl (by decide))))))⟩,
   ⟨by decide,
    (ModifyBoneTransforms_DetermineSpaceForPin_none
      (TwoBoneUnit EControlRigModifyBoneMode.AdditiveLocal) (TEXT "Weight")
      (some RootChildContainer)).1
      (Or.inr (Or.inr (Or.inr (Or.inr (Or.inr (by decide))))))⟩⟩

/-- Witness of C4, the scenario of the specification: `Root(local =
identity)`, `Child(parent = Root, local = translate(1,0,0))`; setting Root's
local transform to `translate(0,5,0)` with propagation leaves Child's local
transform at `translate(1,0,0)` and makes Child's global transform
`translate(1,5,0)`. -/
theorem SetLocalTransform_propagates_witness :
    RootChildRig.IsForest ∧ RootChildRig.Ancestor 1 1 = some 0 ∧
    (RootChildRig.SetLocalTransform TranslationConverter 0 ⟨0, 5, 0⟩ true).GetLocalTransform 1
      = some ⟨1, 0, 0⟩ ∧
    (RootChildRig.SetLocalTransform TranslationConverter 0 ⟨0, 5, 0⟩ true).GetGlobalTransform 1
      = some ⟨1, 5, 0⟩ ∧
    (RootChildRig.SetLocalTransform TranslationConverter 0 ⟨0, 5, 0⟩ true).GetLocalTransform 1
      = RootChildRig.GetLocalTransform 1 ∧
    (∃ (p : Nat) (G L : FTranslation),
      RootChildRig.GetParentIndex 1 = some p ∧
      (RootChildRig.SetLocalTransform TranslationConverter 0 ⟨0, 5, 0⟩ true).GetParentIndex 1
        = some p ∧
      (RootChildRig.SetLocalTransform TranslationConverter 0 ⟨0, 5, 0⟩ true).GetGlobalTransform p
        = some G ∧
      (RootChildRig.SetLocalTransform TranslationConverter 0 ⟨0, 5, 0⟩ true).GetLocalTransform 1
        = some L ∧
      (RootChildRig.SetLocalTransform TranslationConverter 0 ⟨0, 5, 0⟩ true).GetGlobalTransform 1
        = some (TranslationConverter.ToGlobal G L)) :=
  ⟨by decide, by decide, by decide, by decide,
    SetLocalTransform_propagates TranslationConverter RootChildRig (by decide) 0 ⟨0, 5, 0⟩ 1 1
      (by decide) (by decide)⟩

/-- Counterexample to C9 as stated: the pin path `translation.x` does not
start with `Translation`, yet the prefix test of the code ignores case and
the unit (local space, the child bone of the example rig) advises the root
bone instead of `NAME_None`. -/
theorem SetBoneTranslation_DetermineSpaceForPin_none_counterexample :
    ¬ (TEXT "Translation" <+: TEXT "translation.x") ∧
    (TEXT "Translation").isPrefixOf (TEXT "translation.x") = false ∧
    StartsWith (TEXT "translation.x") (TEXT "Translation") = true ∧
    ChildTranslationUnit.Space = EBoneGetterSetterMode.LocalSpace ∧
    (ChildTranslationUnit.DetermineSpaceForPin (TEXT "translation.x")
      (some RootChildContainer)).Value = some RootName ∧
    (ChildTranslationUnit.DetermineSpaceForPin (TEXT "translation.x")
      (some RootChildContainer)).Value ≠ some NAME_None := by
  refine ⟨?_, by decide, by decide, by decide, by decide, by decide⟩
  intro h
  have := List.isPrefixOf_iff_prefix.mpr h
  exact absurd this (by decide)

/-- Counterexample to C10 as stated: the pin path `bonetomodify[1].transform`
does not start with `BoneToModify`, yet the prefix test of the code ignores
case and the unit (mode `AdditiveLocal`) advises the bone of entry `1`
instead of `NAME_None`. -/
theorem ModifyBoneTransforms_DetermineSpaceForPin_none_counterexample :
    ¬ (TEXT "BoneToModify" <+: TEXT "bonetomodify[1].transform") ∧
    (TEXT "BoneToModify").isPrefixOf (TEXT "bonetomodify[1].transform") = false ∧
    StartsWith (TEXT "bonetomodify[1].transform") (TEXT "BoneToModify") = true ∧
    ((TwoBoneUnit EControlRigModifyBoneMode.AdditiveLocal).DetermineSpaceForPin
      (TEXT "bonetomodify[1].transform") none).Value = some ChildName ∧
    ((TwoBoneUnit EControlRigModifyBoneMode.AdditiveLocal).DetermineSpaceForPin
      (TEXT "bonetomodify[1].transform") none).Value ≠ some NAME_None := by
  refine ⟨?_, by decide, by decide, by decide, by decide⟩
  intro h
  have := List.isPrefixOf_iff_prefix.mpr h
  exact absurd this (by decide)

end ControlRig
